import Mathlib

/-!
Verification of DragonSync's ingest-to-dispatch pipeline against its
natural-language specification.

The Python sources are shallowly embedded:
* `signal_manager.py` (`SignalManager`)  → `SigMgr` and its operations;
* `manager.py` (`DroneManager`)          → `Mgr` and its operations;
* `adsb_parser.py` / `aircraft.py`       → `parse_adsb_aircraft`, `craft_to_cot`,
  `ADSBTracker.should_send`;
* `signal_ingest.py`                     → `stable_offset`, `offset_latlon`,
  FPV anchor resolution;
* `drone.py` (`Drone.update` bearing fallback) → `droneUpdate`.

Wall-clock times are modelled as rationals (`ℚ`); geometry that goes through
`math.sin`/`cos`/`atan2` is modelled over the reals (`ℝ`).  Python `dict`s are
modelled as duplicate-free association lists, `collections.deque` as a list
with head = leftmost element.
-/

namespace DragonSync

/-! ### Association-list helpers (model of Python `dict`) -/

/-- `dict.get k` with default. -/
def alistGetD {β : Type} (l : List (String × β)) (k : String) (d : β) : β :=
  match l.lookup k with
  | some v => v
  | none => d

/-- `dict[k] = v`: replace the binding if the key is present, else append. -/
def alistInsert {β : Type} (l : List (String × β)) (k : String) (v : β) :
    List (String × β) :=
  if (l.lookup k).isSome then
    l.map (fun p => if p.1 = k then (k, v) else p)
  else
    l ++ [(k, v)]

/-- `dict.pop(k, None)`: drop the binding for `k` (all of them; keys are
duplicate-free in every reachable state). -/
def alistErase {β : Type} (l : List (String × β)) (k : String) :
    List (String × β) :=
  l.filter (fun p => p.1 ≠ k)

/-! ### `signal_manager.py` — `SignalManager`

Only the fields that the store's control flow reads are kept per entry: the
`uid` key and the `expires_at` stamp written by `add_signal`.  The payload
fields are opaque to `SignalManager` (it stores and returns them verbatim), so
they are irrelevant to the claims about capacity, TTL and eviction order. -/

/-- State of `SignalManager`: `_signals` maps uid to `expires_at`;
`_order` is the `deque(maxlen=max_signals)` with head = oldest. -/
structure SigMgr where
  ttl : ℚ
  maxSignals : Nat
  signals : List (String × ℚ)
  order : List String
  deriving DecidableEq, Repr

/-- `SignalManager(ttl_s, max_signals)` constructor. -/
def SigMgr.init (ttl : ℚ) (maxSignals : Nat) : SigMgr :=
  { ttl := ttl, maxSignals := maxSignals, signals := [], order := [] }

/-- The `while len(self._signals) > self.max_signals` loop of `_prune_locked`:
pop uids from the left of the order deque and drop them from the map until the
map is small enough or the deque runs dry. -/
def sigPruneOver (maxSignals : Nat) :
    List String → List (String × ℚ) → List String × List (String × ℚ)
  | o, s =>
    if s.length ≤ maxSignals then (o, s)
    else
      match o with
      | [] => ([], s)
      | h :: t => sigPruneOver maxSignals t (alistErase s h)

/-- `SignalManager._prune_locked(now)`: first drop the expired entries from the
map and the order deque, then shrink to the capacity bound. -/
def SigMgr.prune (m : SigMgr) (now : ℚ) : SigMgr :=
  let expired := (m.signals.filter (fun p => p.2 ≤ now)).map Prod.fst
  let s₁ := m.signals.filter (fun p => ¬ p.2 ≤ now)
  let o₁ := m.order.filter (fun u => u ∉ expired)
  let (o₂, s₂) := sigPruneOver m.maxSignals o₁ s₁
  { m with signals := s₂, order := o₂ }

/-- Append to a `deque(maxlen=n)`: when the deque is full the leftmost element
is silently discarded. -/
def dequeAppend (n : Nat) (o : List String) (u : String) : List String :=
  (o ++ [u]).drop (o.length + 1 - n)

/-- `SignalManager.add_signal(signal)` at wall-clock `now`.  An empty uid is
ignored; otherwise the entry is (re-)inserted with `expires_at = now + ttl`,
moved to the back of the order deque, and the store is pruned. -/
def SigMgr.addSignal (m : SigMgr) (uid : String) (now : ℚ) : SigMgr :=
  if uid = "" then m
  else
    let s₁ := alistInsert m.signals uid (now + m.ttl)
    let o₁ := (m.order.filter (fun u => u ≠ uid))
    let o₂ := dequeAppend m.maxSignals o₁ uid
    SigMgr.prune { m with signals := s₁, order := o₂ } now

/-- `SignalManager.export_signals()` at wall-clock `now`: prune, then list the
live entries in deque order. -/
def SigMgr.exportSignals (m : SigMgr) (now : ℚ) : List (String × ℚ) × SigMgr :=
  let m' := m.prune now
  (m'.order.filterMap (fun u => (m'.signals.lookup u).map (fun e => (u, e))), m')

/-- The operations the API surface exposes on the store. -/
inductive SigOp where
  | add (uid : String) (now : ℚ)
  | export (now : ℚ)
  deriving DecidableEq, Repr

def SigMgr.step (m : SigMgr) : SigOp → SigMgr
  | .add uid now => m.addSignal uid now
  | .export now => (m.exportSignals now).2

def SigMgr.run (m : SigMgr) (ops : List SigOp) : SigMgr :=
  ops.foldl SigMgr.step m

/-! ### `manager.py` — `DroneManager`

The per-drone record keeps exactly the `Drone` fields that `DroneManager`'s
control flow reads or writes (admission, trust, rate limiting, eviction,
emission gating).  Pure payload fields (speed, description, …) are copied
verbatim by the manager and cannot influence any claim. -/

structure DroneRec where
  lat : ℚ
  lon : ℚ
  pilotLat : ℚ
  pilotLon : ℚ
  homeLat : ℚ
  homeLon : ℚ
  mac : String
  /-- `Drone.rid_lookup_success` -/
  ridSuccess : Bool
  lastUpdateTime : ℚ
  lastSentTime : ℚ
  lastSentLat : ℚ
  lastSentLon : ℚ
  deriving DecidableEq, Repr

/-- A sink's capabilities, probed by `hasattr` in `send_updates`. -/
structure Sink where
  hasPublishDrone : Bool
  hasPublishPilot : Bool
  hasPublishHome : Bool
  hasMarkInactive : Bool
  deriving DecidableEq, Repr

/-- Observable emissions of one `send_updates` call. -/
inductive Ev where
  | cot (uid : String)
  | pilotCot (uid : String)
  | homeCot (uid : String)
  | publishDrone (sink : Nat) (uid : String)
  | publishPilot (sink : Nat) (uid : String)
  | publishHome (sink : Nat) (uid : String)
  | markInactive (sink : Nat) (uid : String)
  deriving DecidableEq, Repr

/-- `DroneManager` state.  `drones` is the FIFO deque (head = oldest),
`droneDict` the uid-keyed dict, `trustedIds` the trusted set. -/
structure Mgr where
  maxTrusted : Nat
  maxOpportunistic : Nat
  drones : List String
  droneDict : List (String × DroneRec)
  trustedIds : List String
  macIdWindow : List (String × List (ℚ × String))
  macWindowSeconds : ℚ
  maxIdsPerMacWindow : Nat
  macBackoffSeconds : ℚ
  macBlockedUntil : List (String × ℚ)
  rateLimit : ℚ
  inactivityTimeout : ℚ
  hasMessenger : Bool
  sinks : List Sink
  deriving DecidableEq, Repr

/-- `DroneManager.__init__`: both pools get `max_drones` slots and the
MAC-guard constants are `W = 30 s`, `K = 5`, `B = 60 s`. -/
def Mgr.init (maxDrones : Nat) (rateLimit inactivityTimeout : ℚ)
    (hasMessenger : Bool) (sinks : List Sink) : Mgr :=
  { maxTrusted := maxDrones
    maxOpportunistic := maxDrones
    drones := []
    droneDict := []
    trustedIds := []
    macIdWindow := []
    macWindowSeconds := 30
    maxIdsPerMacWindow := 5
    macBackoffSeconds := 60
    macBlockedUntil := []
    rateLimit := rateLimit
    inactivityTimeout := inactivityTimeout
    hasMessenger := hasMessenger
    sinks := sinks }

/-- `set.add`: append only when absent. -/
def setAdd (s : List String) (u : String) : List String :=
  if s.contains u then s else s ++ [u]

/-- The rotation loop of `DroneManager._evict_oldest`, fuelled by the initial
deque length (`for _ in range(len(self.drones))`): pop the left end; a drone of
the wrong pool is appended back, the first drone of the requested pool is
evicted from deque, dict and trusted set. -/
def evictOldestGo (trustedOnly : Bool) : Mgr → Nat → Mgr × Bool
  | m, 0 => (m, false)
  | m, n + 1 =>
    match m.drones with
    | [] => (m, false)
    | c :: rest =>
      let isT := m.trustedIds.contains c
      if trustedOnly ≠ isT then
        evictOldestGo trustedOnly { m with drones := rest ++ [c] } n
      else
        ({ m with
            drones := rest
            droneDict := alistErase m.droneDict c
            trustedIds := if isT then m.trustedIds.filter (fun u => u ≠ c)
                          else m.trustedIds }, true)

def Mgr.evictOldest (m : Mgr) (trustedOnly : Bool) : Mgr × Bool :=
  evictOldestGo trustedOnly m m.drones.length

/-- The final "Admit" block of `_admit_new_drone`: append to the deque, store
the record (with `last_sent_time = 0.0`), extend the trusted set if trusted. -/
def Mgr.admitFinal (m : Mgr) (uid : String) (data : DroneRec) (trusted : Bool) :
    Mgr :=
  { m with
      drones := m.drones ++ [uid]
      droneDict := alistInsert m.droneDict uid { data with lastSentTime := 0 }
      trustedIds := if trusted then setAdd m.trustedIds uid else m.trustedIds }

/-- The two-pool capacity stage of `_admit_new_drone`.  Pool sizes are computed
as in the Python (`current_opportunistic = len(drone_dict) - len(trusted_ids)`,
over ℤ). -/
def Mgr.admitPools (m : Mgr) (uid : String) (data : DroneRec) (trusted : Bool) :
    Mgr × Bool :=
  let currentTrusted : ℤ := m.trustedIds.length
  let currentOpp : ℤ := (m.droneDict.length : ℤ) - m.trustedIds.length
  if trusted then
    if currentTrusted ≥ (m.maxTrusted : ℤ) then
      let em := m.evictOldest true
      if em.2 then (em.1.admitFinal uid data trusted, true) else (em.1, false)
    else (m.admitFinal uid data trusted, true)
  else
    if currentOpp ≥ (m.maxOpportunistic : ℤ) then
      let em := m.evictOldest false
      if em.2 then (em.1.admitFinal uid data trusted, true) else (em.1, false)
    else (m.admitFinal uid data trusted, true)

/-- `DroneManager._admit_new_drone`: MAC-spam guard (backoff check, window
prune + append, distinct-uid count) then pool admission.  `trusted` is
`_is_trusted(drone_data) = drone_data.rid_lookup_success`. -/
def Mgr.admitNewDrone (m : Mgr) (uid : String) (data : DroneRec) (now : ℚ) :
    Mgr × Bool :=
  let mac := data.mac
  let trusted := data.ridSuccess
  if mac ≠ "" then
    let blockedUntil := alistGetD m.macBlockedUntil mac 0
    if now < blockedUntil then (m, false)
    else
      let entries :=
        ((alistGetD m.macIdWindow mac []).filter
          (fun e => now - e.1 ≤ m.macWindowSeconds)) ++ [(now, uid)]
      let m₁ := { m with macIdWindow := alistInsert m.macIdWindow mac entries }
      if ((entries.map Prod.snd).dedup).length > m.maxIdsPerMacWindow then
        ({ m₁ with
            macBlockedUntil :=
              alistInsert m₁.macBlockedUntil mac (now + m.macBackoffSeconds) },
          false)
      else m₁.admitPools uid data trusted
  else m.admitPools uid data trusted

/-- The same-uid branch of `update_or_add_drone`: `Drone.update` overwrites
position, pilot position, mac (home is reset: the manager does not pass
`home_lat`/`home_lon`, so `Drone.update`'s defaults `0.0` apply) and stamps
`last_update_time = now`; then the drone is promoted to the trusted set when
its `rid_lookup_success` flag is set. -/
def Mgr.updateExisting (m : Mgr) (uid : String) (ex data : DroneRec) (now : ℚ) :
    Mgr :=
  let ex' := { ex with
      lat := data.lat
      lon := data.lon
      pilotLat := data.pilotLat
      pilotLon := data.pilotLon
      homeLat := 0
      homeLon := 0
      mac := data.mac
      lastUpdateTime := now }
  let m₁ := { m with droneDict := alistInsert m.droneDict uid ex' }
  if ex'.ridSuccess then { m₁ with trustedIds := setAdd m₁.trustedIds uid }
  else m₁

/-- `DroneManager.update_or_add_drone`.  The Bool records whether the
observation was accepted (admitted or applied to an existing track). -/
def Mgr.updateOrAdd (m : Mgr) (uid : String) (data : DroneRec) (now : ℚ) :
    Mgr × Bool :=
  match m.droneDict.lookup uid with
  | none => m.admitNewDrone uid data now
  | some ex => (m.updateExisting uid ex data now, true)

/-- The emissions of one rate-limited update of one live drone in
`send_updates`: main CoT via the messenger (`to_cot_xml` is never empty),
per-sink publishes gated by capability and non-zero pilot/home coordinates,
then pilot/home CoT (suppressed for uid `"drone-alert"`, whose
`to_pilot_cot_xml`/`to_home_cot_xml` return empty bytes). -/
def emitForDrone (m : Mgr) (uid : String) (d : DroneRec) : List Ev :=
  (if m.hasMessenger then [Ev.cot uid] else [])
  ++ (m.sinks.enum.foldr (fun p acc =>
        ((if p.2.hasPublishDrone then [Ev.publishDrone p.1 uid] else [])
        ++ (if (d.pilotLat ≠ 0 ∨ d.pilotLon ≠ 0) ∧ p.2.hasPublishPilot then
              [Ev.publishPilot p.1 uid] else [])
        ++ (if (d.homeLat ≠ 0 ∨ d.homeLon ≠ 0) ∧ p.2.hasPublishHome then
              [Ev.publishHome p.1 uid] else [])) ++ acc) [])
  ++ (if (d.pilotLat ≠ 0 ∨ d.pilotLon ≠ 0) ∧ m.hasMessenger ∧
         uid ≠ "drone-alert" then [Ev.pilotCot uid] else [])
  ++ (if (d.homeLat ≠ 0 ∨ d.homeLon ≠ 0) ∧ m.hasMessenger ∧
         uid ≠ "drone-alert" then [Ev.homeCot uid] else [])

/-- One iteration of the `for drone_id in list(self.drones)` loop of
`send_updates`: an inactive drone is queued for removal (and emits nothing),
a drone past the rate limit emits and has its sent snapshot updated. -/
def tickOne (now : ℚ) (acc : Mgr × List Ev × List String) (uid : String) :
    Mgr × List Ev × List String :=
  let m := acc.1
  let evs := acc.2.1
  let toRemove := acc.2.2
  match m.droneDict.lookup uid with
  | none => (m, evs, toRemove)
  | some d =>
    if now - d.lastUpdateTime > m.inactivityTimeout then
      (m, evs, toRemove ++ [uid])
    else if now - d.lastSentTime ≥ m.rateLimit then
      let d' := { d with lastSentLat := d.lat, lastSentLon := d.lon,
                         lastSentTime := now }
      ({ m with droneDict := alistInsert m.droneDict uid d' },
        evs ++ emitForDrone m uid d, toRemove)
    else (m, evs, toRemove)

/-- The housekeeping loop of `send_updates`: `mark_inactive` on every sink
that supports it, then removal from deque, dict and trusted set. -/
def removeOne (acc : Mgr × List Ev) (uid : String) : Mgr × List Ev :=
  let m := acc.1
  let evs := acc.2
  ({ m with
      drones := m.drones.erase uid
      droneDict := alistErase m.droneDict uid
      trustedIds := m.trustedIds.filter (fun u => u ≠ uid) },
    evs ++ m.sinks.enum.filterMap (fun p =>
      if p.2.hasMarkInactive then some (Ev.markInactive p.1 uid) else none))

/-- `DroneManager.send_updates` at wall-clock `now`. -/
def Mgr.sendUpdates (m : Mgr) (now : ℚ) : Mgr × List Ev :=
  let r := m.drones.foldl (tickOne now) (m, [], [])
  r.2.2.foldl removeOne (r.1, r.2.1)

/-- Registry operations: an observation upsert, an enrichment result applied
to the stored drone (`Drone.apply_rid_lookup_result` setting
`rid_lookup_success`), and a dispatcher tick. -/
inductive MgrOp where
  | upsert (uid : String) (data : DroneRec) (now : ℚ)
  | setRid (uid : String) (b : Bool)
  | tick (now : ℚ)
  deriving DecidableEq, Repr

def Mgr.step (m : Mgr) : MgrOp → Mgr × List Ev
  | .upsert uid data now => ((m.updateOrAdd uid data now).1, [])
  | .setRid uid b =>
    (match m.droneDict.lookup uid with
     | none => m
     | some d =>
       { m with droneDict := alistInsert m.droneDict uid
                  { d with ridSuccess := b } }, [])
  | .tick now => m.sendUpdates now

def Mgr.run (m : Mgr) (ops : List MgrOp) : Mgr :=
  ops.foldl (fun s op => (s.step op).1) m

/-- Number of trusted tracks. -/
def Mgr.trustedCount (m : Mgr) : Nat := m.trustedIds.length

/-- Number of opportunistic tracks, as the Python computes it. -/
def Mgr.oppCount (m : Mgr) : ℤ :=
  (m.droneDict.length : ℤ) - m.trustedIds.length

/-! ### `adsb_parser.py` — `parse_adsb_aircraft`

`get_float` / `get_int` come from the repo's `utils` module, which is not in
the source tree; on the numeric JSON values consumed here `get_float` is
modelled as the identity and `get_int` as Python `int()` truncation. -/

/-- Python `int()` on a rational (truncation toward zero). -/
def ratTrunc (q : ℚ) : ℤ := if 0 ≤ q then ⌊q⌋ else ⌈q⌉

/-- A dump1090/readsb altitude field: a number in feet, or the string
`"ground"`. -/
inductive AltField where
  | num (v : ℚ)
  | ground
  deriving DecidableEq, Repr

/-- The craft JSON fields read by `parse_adsb_aircraft` and
`ADSBTracker.craft_to_cot`.  `onground` is the truthiness of
`onground`/`OnGround`. -/
structure AdsbAircraft where
  hex : Option String
  flight : Option String
  lat : Option ℚ
  lon : Option ℚ
  alt_geom : Option AltField
  alt_baro : Option AltField
  gs : Option ℚ
  baro_rate : Option ℚ
  geom_rate : Option ℚ
  track : Option ℚ
  category : Option String
  rssi : Option ℚ
  squawk : Option String
  reg : Option String
  nic : Option ℚ
  nac_p : Option ℚ
  nac_v : Option ℚ
  onground : Bool
  deriving DecidableEq, Repr

/-- `ADSB_CATEGORY_TO_UA_TYPE` (ICAO Doc 9871). -/
def adsbCategoryUaType (c : String) : Option (Nat × String) :=
  match c with
  | "A0" => some (1, "Light")
  | "A1" => some (1, "Small")
  | "A2" => some (1, "Large")
  | "A3" => some (1, "High Vortex Large")
  | "A4" => some (1, "Heavy")
  | "A5" => some (1, "High Performance")
  | "A6" => some (2, "Rotorcraft")
  | "A7" => some (1, "Reserved")
  | "B0" => some (8, "Reserved")
  | "B1" => some (6, "Glider/Sailplane")
  | "B2" => some (8, "Lighter-than-Air")
  | "B3" => some (14, "Parachutist/Skydiver")
  | "B4" => some (12, "Ultralight/hang-glider/paraglider")
  | "B5" => some (1, "Reserved")
  | "B6" => some (12, "Unmanned Aerial Vehicle")
  | "B7" => some (15, "Space/Trans-atmospheric vehicle")
  | "C0" => some (14, "Reserved")
  | "C1" => some (14, "Surface Vehicle - Emergency Vehicle")
  | "C2" => some (14, "Surface Vehicle - Service Vehicle")
  | "C3" => some (14, "Point Obstacle")
  | "C4" => some (14, "Cluster Obstacle")
  | "C5" => some (14, "Line Obstacle")
  | "C6" => some (14, "Reserved")
  | "C7" => some (14, "Reserved")
  | "D0" => some (15, "Reserved")
  | "D1" => some (15, "Reserved")
  | "D2" => some (15, "Reserved")
  | "D3" => some (15, "Reserved")
  | "D4" => some (15, "Reserved")
  | "D5" => some (15, "Reserved")
  | "D6" => some (15, "Reserved")
  | "D7" => some (15, "Reserved")
  | _ => none

/-- The normalized dict produced by `parse_adsb_aircraft` (the optional
`seen`/`message_count` diagnostics are omitted). -/
structure ParsedAdsb where
  id : String
  mac : String
  callsign : String
  lat : ℚ
  lon : ℚ
  alt : ℚ
  height : ℚ
  speed : ℚ
  vspeed : ℚ
  direction : Option ℤ
  ua_type : Nat
  ua_type_name : String
  rssi : ℤ
  squawk : String
  description : String
  id_type : String
  source : String
  nic : ℚ
  nac_p : ℚ
  nac_v : ℚ
  deriving DecidableEq, Repr

/-- `parse_adsb_aircraft`: returns `none` exactly when the ICAO `hex` field is
missing or empty; missing lat/lon is *not* rejected (both default to `0.0`).
Altitude prefers `alt_geom`, falls back to `alt_baro` (each skipped when it is
the string `"ground"`), feet → meters by `× 0.3048`. -/
def parse_adsb_aircraft (a : AdsbAircraft) : Option ParsedAdsb :=
  match a.hex with
  | none => none
  | some icao =>
    if icao = "" then none
    else
      let callsign0 := (a.flight.getD "").trim
      let latlon : ℚ × ℚ :=
        match a.lat, a.lon with
        | some la, some lo => (la, lo)
        | _, _ => (0, 0)
      let alt : ℚ :=
        match a.alt_geom with
        | some (.num v) => v * 0.3048
        | _ =>
          match a.alt_baro with
          | some (.num v) => v * 0.3048
          | _ => 0
      let ua : Nat × String :=
        match adsbCategoryUaType (a.category.getD "") with
        | some (t, sub) => (t, "Aircraft - " ++ sub)
        | none => (1, "Aircraft - Unknown Type")
      let sq := a.squawk.getD ""
      let descParts :=
        (if callsign0 ≠ "" then ["Flight: " ++ callsign0] else [])
        ++ (if sq ≠ "" then ["Squawk: " ++ sq] else [])
        ++ (if a.category.getD "" ≠ "" then ["Cat: " ++ a.category.getD ""] else [])
      some
        { id := icao.toUpper
          mac := icao.toUpper
          callsign := if callsign0 = "" then icao else callsign0
          lat := latlon.1
          lon := latlon.2
          alt := alt
          height := alt
          speed := (a.gs.getD 0) * 0.514444
          vspeed :=
            match a.geom_rate with
            | some v => v * 0.00508
            | none =>
              match a.baro_rate with
              | some v => v * 0.00508
              | none => 0
          direction := a.track.map ratTrunc
          ua_type := ua.1
          ua_type_name := ua.2
          rssi :=
            match a.rssi with
            | some v => ratTrunc (max (-100) (min 0 v))
            | none => -50
          squawk := sq
          description :=
            if descParts = [] then "ADS-B: " ++ icao
            else String.intercalate " | " descParts
          id_type := "ICAO 24-bit Address"
          source := "ADS-B"
          nic := a.nic.getD 0
          nac_p := a.nac_p.getD 0
          nac_v := a.nac_v.getD 0 }

/-! ### `aircraft.py` — `ADSBTracker` -/

/-- The numeric content of the CoT event built by
`ADSBTracker.craft_to_cot` (values before XML stringification). -/
structure AdsbCot where
  uid : String
  lat : ℚ
  lon : ℚ
  hae : ℚ
  ce : ℚ
  le : ℚ
  course : ℚ
  speed : ℚ
  deriving DecidableEq, Repr

/-- `ADSBTracker.make_uid`. -/
def make_uid (uidPre : String) (a : AdsbAircraft) : Option String :=
  let icao := ((a.hex.getD "").trim).toLower
  if icao = "" then none else some (uidPre ++ icao)

/-- `ADSBTracker.craft_to_cot`: rejects a craft without lat/lon or without a
usable `hex`.  The selected altitude is fed to `float()` *without* a feet →
meters conversion; a `"ground"` string there raises an uncaught `ValueError`,
modelled as `none`. -/
def craft_to_cot (uidPre : String) (a : AdsbAircraft) : Option AdsbCot :=
  match a.lat, a.lon with
  | some la, some lo =>
    match make_uid uidPre a with
    | none => none
    | some uid =>
      let altSel : Option ℚ :=
        match a.alt_geom with
        | some (.num v) => some v
        | some .ground => none
        | none =>
          match a.alt_baro with
          | some (.num v) => some v
          | some .ground => none
          | none => some 0
      match altSel with
      | none => none
      | some alt =>
        let nacp := a.nac_p
        let nacv : Option ℚ :=
          match a.nac_v with
          | some v => some v
          | none => nacp
        let cele : ℚ × ℚ :=
          match nacp with
          | some p =>
            (p + (if a.onground then 51.56 else 56.57), (nacv.getD p) + 12.5)
          | none => (35.0, 999999.0)
        some
          { uid := uid
            lat := la
            lon := lo
            hae := alt
            ce := cele.1
            le := cele.2
            course := a.track.getD 0
            speed := a.gs.getD 0 }
  | _, _ => none

/-- `ADSBTracker` rate-limit state (`__init__` clamps
`rate_limit` to ≥ 0.5 and `stale` to ≥ 5.0). -/
structure Tracker where
  rateLimit : ℚ
  staleS : ℚ
  lastSent : List (String × ℚ)
  deriving DecidableEq, Repr

def Tracker.init (rateLimit staleS : ℚ) : Tracker :=
  { rateLimit := max rateLimit 0.5, staleS := max staleS 5, lastSent := [] }

/-- `ADSBTracker.should_send`: allow and stamp when at least `rate_limit`
seconds have passed since the last allowed send (missing entry counts as
`0.0`). -/
def Tracker.shouldSend (t : Tracker) (uid : String) (now : ℚ) :
    Bool × Tracker :=
  let last := alistGetD t.lastSent uid 0
  if now - last ≥ t.rateLimit then
    (true, { t with lastSent := alistInsert t.lastSent uid now })
  else (false, t)

/-! ### `signal_ingest.py` — FPV alert plotting

`_stable_offset` seeds a direction/distance pair from the first two bytes of
`hashlib.sha1(seed)`.  SHA-1 is a standard-library primitive outside this
repository; it is modelled as an arbitrary deterministic byte function
`digest : String → Fin 256 × Fin 256` (every theorem below is universally
quantified over it, so nothing depends on the specifics of SHA-1 beyond
determinism and the byte range). -/

/-- `_stable_offset(seed, radius_m)` → `(d_north, d_east)` in meters. -/
noncomputable def stable_offset (digest : String → Fin 256 × Fin 256)
    (seed : String) (radius : ℝ) : ℝ × ℝ :=
  if radius ≤ 0 then (0, 0)
  else
    let b := digest seed
    let angle := ((b.1 : ℕ) : ℝ) / 255 * (2 * Real.pi)
    let distance := ((b.2 : ℕ) : ℝ) / 255 * radius
    (Real.cos angle * distance, Real.sin angle * distance)

/-- `_offset_latlon(lat, lon, radius_m, seed)`: flat-earth conversion of the
offset vector to degrees of latitude/longitude around the anchor. -/
noncomputable def offset_latlon (digest : String → Fin 256 × Fin 256)
    (lat lon radius : ℝ) (seed : String) : ℝ × ℝ :=
  let dne := stable_offset digest seed radius
  let metersPerDegLat : ℝ := 111320
  let metersPerDegLon : ℝ :=
    111320 * max (Real.cos (lat * Real.pi / 180)) 1e-6
  (lat + dne.1 / metersPerDegLat, lon + dne.2 / metersPerDegLon)

/-- Anchor selection in `start_signal_worker.worker`: sensor lat/lon when both
are present (with `sensor_alt` defaulting to `0.0`), else the kit's system
location, else the alert is skipped. -/
def resolveAnchor (sensorLat sensorLon sensorAlt : Option ℝ)
    (sysLoc : Option (ℝ × ℝ × ℝ)) : Option (ℝ × ℝ × ℝ) :=
  match sensorLat, sensorLon with
  | some la, some lo => some (la, lo, sensorAlt.getD 0)
  | _, _ =>
    match sysLoc with
    | some l => some l
    | none => none

/-- The plotted position of an FPV alert: the anchor offset by the
uid-keyed deterministic vector.  `none` when no anchor can be resolved (the
worker `continue`s and neither stores a signal nor emits CoT). -/
noncomputable def fpvPlot (digest : String → Fin 256 × Fin 256)
    (radius : ℝ) (uid : String) (sensorLat sensorLon sensorAlt : Option ℝ)
    (sysLoc : Option (ℝ × ℝ × ℝ)) : Option (ℝ × ℝ) :=
  match resolveAnchor sensorLat sensorLon sensorAlt sysLoc with
  | none => none
  | some anchor => some (offset_latlon digest anchor.1 anchor.2.1 radius uid)

/-! ### `drone.py` — `Drone.update` course fallback -/

/-- `math.atan2(y, x)` (first argument is the ordinate), via the complex
argument: `atan2 y x = arg (x + y·i) ∈ (-π, π]`. -/
noncomputable def atan2 (y x : ℝ) : ℝ := Complex.arg ⟨x, y⟩

/-- `math.radians`. -/
noncomputable def radians (d : ℝ) : ℝ := d * Real.pi / 180

/-- `math.degrees`. -/
noncomputable def degrees (r : ℝ) : ℝ := r * 180 / Real.pi

/-- Python float `%` with a positive modulus: `x - m·⌊x/m⌋ ∈ [0, m)`. -/
noncomputable def pyMod (x m : ℝ) : ℝ := x - m * ⌊x / m⌋

/-- The `theta` computation of `Drone.update`'s fallback bearing, followed by
`(math.degrees(theta) + 360) % 360`. -/
noncomputable def fallbackBearing (prevLat prevLon lat lon : ℝ) : ℝ :=
  let lat1 := radians prevLat
  let lon1 := radians prevLon
  let lat2 := radians lat
  let lon2 := radians lon
  let deltaLon := lon2 - lon1
  let x := Real.sin deltaLon * Real.cos lat2
  let y := Real.cos lat1 * Real.sin lat2 -
    Real.sin lat1 * Real.cos lat2 * Real.cos deltaLon
  pyMod (degrees (atan2 x y) + 360) 360

/-- The position/course state of a `Drone` touched by `update`'s bearing
fallback. -/
structure DronePos where
  lat : ℝ
  lon : ℝ
  prevLat : Option ℝ
  prevLon : Option ℝ
  direction : Option ℝ

/-- `Drone.__init__` leaves `prev_lat`/`prev_lon` unset. -/
def DronePos.mk0 (lat lon : ℝ) (direction : Option ℝ) : DronePos :=
  { lat := lat, lon := lon, prevLat := none, prevLon := none,
    direction := direction }

/-- `Drone.update` restricted to position and course: remember the previous
position, overwrite the position, keep the old course when the observation
has none, and derive the fallback bearing only when the stored course is still
unset (`prev_lat` is always set at this point, having just been assigned). -/
noncomputable def droneUpdate (d : DronePos) (lat lon : ℝ)
    (direction : Option ℝ) : DronePos :=
  let prevLat := d.lat
  let prevLon := d.lon
  let dir₀ := match direction with
    | some v => some v
    | none => d.direction
  { lat := lat, lon := lon, prevLat := some prevLat, prevLon := some prevLon,
    direction :=
      match dir₀ with
      | some v => some v
      | none => some (fallbackBearing prevLat prevLon lat lon) }

/-! ### Specification-side definitions and statement helpers -/

/-- The great-circle bearing of §4.2 of the spec, written from the spec's
words: `θ = atan2(sin Δλ·cos φ₂, cos φ₁·sin φ₂ − sin φ₁·cos φ₂·cos Δλ)`,
normalized to `[0, 360)`. -/
noncomputable def specGreatCircleBearing (lat1 lon1 lat2 lon2 : ℝ) : ℝ :=
  let φ₁ := radians lat1
  let φ₂ := radians lat2
  let Δlon := radians lon2 - radians lon1
  let θ := atan2 (Real.sin Δlon * Real.cos φ₂)
    (Real.cos φ₁ * Real.sin φ₂ - Real.sin φ₁ * Real.cos φ₂ * Real.cos Δlon)
  pyMod (degrees θ + 360) 360

/-- Structural well-formedness of a `DroneManager` state: the deque is
duplicate-free and carries exactly the dict's keys, and the trusted set is a
duplicate-free subset of the registered drones. -/
def MgrInv (m : Mgr) : Prop :=
  m.drones.Nodup ∧
  m.drones.Perm (m.droneDict.map Prod.fst) ∧
  m.trustedIds.Nodup ∧
  ∀ u ∈ m.trustedIds, u ∈ m.drones

instance (m : Mgr) : Decidable (MgrInv m) := by
  unfold MgrInv; infer_instance

/-- No `step` in the op sequence emits a main CoT event for `uid`. -/
def noCotDuring (uid : String) : Mgr → List MgrOp → Prop
  | _, [] => True
  | m, op :: ops => Ev.cot uid ∉ (m.step op).2 ∧ noCotDuring uid (m.step op).1 ops

/-- `uid` is registered before and after every `step` of the op sequence. -/
def uidLiveDuring (uid : String) : Mgr → List MgrOp → Prop
  | m, [] => (m.droneDict.lookup uid).isSome
  | m, op :: ops =>
    (m.droneDict.lookup uid).isSome ∧ uidLiveDuring uid (m.step op).1 ops

/-- Two consecutive `should_send` probes for the same uid: how many were
allowed. -/
def sends2 (tr : Tracker) (uid : String) (t₁ t₂ : ℚ) : Nat :=
  let r₁ := tr.shouldSend uid t₁
  let r₂ := r₁.2.shouldSend uid t₂
  (if r₁.1 then 1 else 0) + (if r₂.1 then 1 else 0)

/-- Sequentially feed a list of fresh uids, each with a blank MAC and no
enrichment, through `update_or_add_drone`; the Bool is `true` iff every
admission succeeded. -/
def admitAllMacless (data : DroneRec) (now : ℚ) :
    Mgr → List String → Mgr × Bool
  | m, [] => (m, true)
  | m, u :: rest =>
    let r := m.updateOrAdd u { data with mac := "", ridSuccess := false } now
    let r' := admitAllMacless data now r.1 rest
    (r'.1, r.2 && r'.2)

/-- Structural well-formedness of a `SignalManager` state: the order deque is
duplicate-free, every deque element is a live map key, the map keys are
duplicate-free, and the map is within capacity. -/
def SigInv (m : SigMgr) : Prop :=
  m.order.Nodup ∧
  (∀ u ∈ m.order, (m.signals.lookup u).isSome) ∧
  (m.signals.map Prod.fst).Nodup ∧
  m.signals.length ≤ m.maxSignals

instance (m : SigMgr) : Decidable (SigInv m) := by
  unfold SigInv; infer_instance

/-- A default drone record for concrete scenarios. -/
def dr0 : DroneRec :=
  { lat := 0, lon := 0, pilotLat := 0, pilotLon := 0, homeLat := 0,
    homeLon := 0, mac := "", ridSuccess := false, lastUpdateTime := 0,
    lastSentTime := 0, lastSentLat := 0, lastSentLon := 0 }

/-- A sink advertising every capability. -/
def sinkAll : Sink :=
  { hasPublishDrone := true, hasPublishPilot := true, hasPublishHome := true,
    hasMarkInactive := true }

/-- A craft with no position fields (`lat`/`lon` absent). -/
def noPosCraft : AdsbAircraft :=
  { hex := some "abc123", flight := none, lat := none, lon := none,
    alt_geom := none, alt_baro := none, gs := none, baro_rate := none,
    geom_rate := none, track := none, category := none, rssi := none,
    squawk := none, reg := none, nic := none, nac_p := none, nac_v := none,
    onground := false }

/-- The §8 scenario-3 craft:
`\x7b"hex":"A12345","lat":40,"lon":-74,"alt_geom":1000,"gs":250,"track":90\x7d`. -/
def exCraft : AdsbAircraft :=
  { hex := some "A12345", flight := none, lat := some 40, lon := some (-74),
    alt_geom := some (.num 1000), alt_baro := none, gs := some 250,
    baro_rate := none, geom_rate := none, track := some 90, category := none,
    rssi := none, squawk := none, reg := none, nic := none, nac_p := none,
    nac_v := none, onground := false }

/-- A craft reporting `alt_geom = "ground"` but a numeric `alt_baro`. -/
def groundCraft : AdsbAircraft :=
  { hex := some "abc123", flight := none, lat := some 1, lon := some 2,
    alt_geom := some .ground, alt_baro := some (.num 500), gs := none,
    baro_rate := none, geom_rate := none, track := none, category := none,
    rssi := none, squawk := none, reg := none, nic := none, nac_p := none,
    nac_v := none, onground := false }

/-- The configuration part of a manager state (the fields no operation ever
rewrites), used to state that operations only touch the mutable registry. -/
def Mgr.cfg (m : Mgr) : Mgr :=
  { m with drones := [], droneDict := [], trustedIds := [],
           macIdWindow := [], macBlockedUntil := [] }

/-- The MAC-guard state of a manager (window and backoff maps together). -/
def Mgr.macState (m : Mgr) : List (String × List (ℚ × String)) × List (String × ℚ) :=
  (m.macIdWindow, m.macBlockedUntil)

/-- The configuration part of a signal-store state. -/
def SigMgr.cfg (m : SigMgr) : SigMgr :=
  { m with signals := [], order := [] }

/-- A concrete stand-in for the SHA-1 byte function in witnesses. -/
def dg0 : String → Fin 256 × Fin 256 := fun _ => (0, 0)

/-- A drone record carrying a fixed MAC, for the MAC-spam scenario. -/
def drM : DroneRec := { dr0 with mac := "AA:BB:CC:DD:EE:FF" }

/-- §8 scenario-5 start state: five distinct uids admitted from one MAC
within the 30-second window. -/
def mgrW : Mgr :=
  (Mgr.init 30 1 60 true []).run
    [.upsert "drone-u1" drM 0, .upsert "drone-u2" drM 1,
     .upsert "drone-u3" drM 2, .upsert "drone-u4" drM 3,
     .upsert "drone-u5" drM 4]

/-- The normalized dict `parse_adsb_aircraft` produces for `exCraft`. -/
def pEx : ParsedAdsb :=
  { id := "A12345", mac := "A12345", callsign := "A12345", lat := 40,
    lon := -74, alt := 1524/5, height := 1524/5, speed := 128611/1000,
    vspeed := 0, direction := some 90, ua_type := 1,
    ua_type_name := "Aircraft - Unknown Type", rssi := -50, squawk := "",
    description := "ADS-B: A12345", id_type := "ICAO 24-bit Address",
    source := "ADS-B", nic := 0, nac_p := 0, nac_v := 0 }

/-- The normalized dict `parse_adsb_aircraft` produces for `noPosCraft`. -/
def pNoPos : ParsedAdsb :=
  { id := "ABC123", mac := "ABC123", callsign := "abc123", lat := 0,
    lon := 0, alt := 0, height := 0, speed := 0, vspeed := 0,
    direction := none, ua_type := 1,
    ua_type_name := "Aircraft - Unknown Type", rssi := -50, squawk := "",
    description := "ADS-B: abc123", id_type := "ICAO 24-bit Address",
    source := "ADS-B", nic := 0, nac_p := 0, nac_v := 0 }

/-- §8 scenario-style C1 counterexample start state: a manager with
`max_drones = 1` (so `Nt = No = 1`). -/
def mgrC1 : Mgr := Mgr.init 1 1 60 true [sinkAll]

/-- C1 counterexample operations: admit `"A"` (opportunistic), let the RID
lookup succeed, update it (promotion), then the same for `"B"`. -/
def opsC1 : List MgrOp :=
  [.upsert "A" dr0 0, .setRid "A" true, .upsert "A" dr0 1,
   .upsert "B" dr0 2, .setRid "B" true, .upsert "B" dr0 3]

/-- The uid an emission event concerns. -/
def evUid : Ev → String
  | .cot u => u
  | .pilotCot u => u
  | .homeCot u => u
  | .publishDrone _ u => u
  | .publishPilot _ u => u
  | .publishHome _ u => u
  | .markInactive _ u => u

/-- The `mark_inactive` events the housekeeping loop of `send_updates` emits
for one removed uid over the sink list. -/
def miEvs (S : List Sink) (u : String) : List Ev :=
  S.enum.filterMap (fun p =>
    if p.2.hasMarkInactive then some (Ev.markInactive p.1 u) else none)

/-- C2 counterexample start state: one drone `"D"` admitted at `t = 0` into a
manager with `inactivity_timeout = 60` and one fully capable sink. -/
def mgrC2 : Mgr := (Mgr.init 2 1 60 true [sinkAll]).run [.upsert "D" dr0 0]

/-! ## Helper lemmas -/

theorem evictOldestGo_cfg (trustedOnly : Bool) :
    ∀ (n : Nat) (m : Mgr), (evictOldestGo trustedOnly m n).1.cfg = m.cfg := by
  intro n
  induction n with
  | zero => intro m; rfl
  | succ k ih =>
    intro m
    rw [evictOldestGo]
    match m.drones with
    | [] => rfl
    | c :: rest =>
      dsimp only
      by_cases ht : trustedOnly ≠ m.trustedIds.contains c
      · rw [if_pos ht]; exact ih _
      · rw [if_neg ht]; rfl

theorem evictOldest_cfg (m : Mgr) (trustedOnly : Bool) :
    (m.evictOldest trustedOnly).1.cfg = m.cfg :=
  evictOldestGo_cfg trustedOnly m.drones.length m

theorem admitPools_cfg (m : Mgr) (uid : String) (data : DroneRec)
    (trusted : Bool) : (m.admitPools uid data trusted).1.cfg = m.cfg := by
  unfold Mgr.admitPools
  dsimp only
  split <;> split
  · split
    · exact evictOldest_cfg m true
    · exact evictOldest_cfg m true
  · rfl
  · split
    · exact evictOldest_cfg m false
    · exact evictOldest_cfg m false
  · rfl

theorem admitNewDrone_cfg (m : Mgr) (uid : String) (data : DroneRec)
    (now : ℚ) : (m.admitNewDrone uid data now).1.cfg = m.cfg := by
  unfold Mgr.admitNewDrone
  dsimp only
  split
  · split
    · rfl
    · split
      · rfl
      · exact admitPools_cfg _ uid data data.ridSuccess
  · exact admitPools_cfg m uid data data.ridSuccess

theorem updateOrAdd_cfg (m : Mgr) (uid : String) (data : DroneRec) (now : ℚ) :
    (m.updateOrAdd uid data now).1.cfg = m.cfg := by
  unfold Mgr.updateOrAdd
  split
  · exact admitNewDrone_cfg m uid data now
  · unfold Mgr.updateExisting
    dsimp only
    split <;> rfl

theorem tickOne_cfg (now : ℚ) (acc : Mgr × List Ev × List String)
    (uid : String) : (tickOne now acc uid).1.cfg = acc.1.cfg := by
  unfold tickOne
  dsimp only
  split
  · rfl
  · split
    · rfl
    · split <;> rfl

theorem tickFold_cfg (now : ℚ) :
    ∀ (l : List String) (acc : Mgr × List Ev × List String),
      (l.foldl (tickOne now) acc).1.cfg = acc.1.cfg := by
  intro l
  induction l with
  | nil => intro acc; rfl
  | cons u t ih =>
    intro acc
    rw [List.foldl_cons, ih (tickOne now acc u), tickOne_cfg]

theorem removeFold_cfg :
    ∀ (l : List String) (acc : Mgr × List Ev),
      (l.foldl removeOne acc).1.cfg = acc.1.cfg := by
  intro l
  induction l with
  | nil => intro acc; rfl
  | cons u t ih =>
    intro acc
    rw [List.foldl_cons, ih (removeOne acc u)]
    rfl

theorem sendUpdates_cfg (m : Mgr) (now : ℚ) :
    (m.sendUpdates now).1.cfg = m.cfg := by
  unfold Mgr.sendUpdates
  dsimp only
  rw [removeFold_cfg, tickFold_cfg]

theorem step_cfg (m : Mgr) (op : MgrOp) : (m.step op).1.cfg = m.cfg := by
  cases op with
  | upsert uid data now => exact updateOrAdd_cfg m uid data now
  | setRid uid b =>
    unfold Mgr.step
    dsimp only
    split <;> rfl
  | tick now => exact sendUpdates_cfg m now

theorem run_cfg (ops : List MgrOp) : ∀ (m : Mgr), (m.run ops).cfg = m.cfg := by
  induction ops with
  | nil => intro m; rfl
  | cons op t ih =>
    intro m
    show ((m.step op).1.run t).cfg = m.cfg
    rw [ih, step_cfg]

theorem lookup_cons_self {β : Type} (k : String) (v : β) (l : List (String × β)) :
    List.lookup k ((k, v) :: l) = some v := by
  simp [List.lookup]

theorem lookup_cons_ne {β : Type} {k k' : String} (v : β) (l : List (String × β))
    (h : k' ≠ k) : List.lookup k' ((k, v) :: l) = List.lookup k' l := by
  have hb : (k' == k) = false := beq_false_of_ne h
  simp [List.lookup, hb]

theorem lookup_cons_split {β : Type} (k k' : String) (v : β)
    (l : List (String × β)) :
    List.lookup k' ((k, v) :: l) = if k' = k then some v else List.lookup k' l := by
  by_cases h : k' = k
  · subst h; rw [if_pos rfl]; exact lookup_cons_self k' v l
  · rw [if_neg h]; exact lookup_cons_ne v l h

theorem lookup_append_none {β : Type} (l₁ l₂ : List (String × β)) (k : String)
    (h : l₁.lookup k = none) : (l₁ ++ l₂).lookup k = l₂.lookup k := by
  induction l₁ with
  | nil => rfl
  | cons p t ih =>
    obtain ⟨a, b⟩ := p
    rw [List.cons_append]
    by_cases hk : k = a
    · subst hk; rw [lookup_cons_self] at h; cases h
    · rw [lookup_cons_ne _ _ hk] at h
      rw [lookup_cons_ne _ _ hk]
      exact ih h

theorem lookup_isSome_iff_mem_keys {β : Type} (l : List (String × β))
    (k : String) : (l.lookup k).isSome ↔ k ∈ l.map Prod.fst := by
  induction l with
  | nil => simp [List.lookup]
  | cons p t ih =>
    obtain ⟨a, b⟩ := p
    rw [lookup_cons_split]
    by_cases hk : k = a
    · simp [hk]
    · simp [hk, ih]

theorem lookup_map_replace_ne {β : Type} (k k' : String) (v : β) (h : k' ≠ k) :
    ∀ l : List (String × β),
      (l.map (fun p => if p.1 = k then (k, v) else p)).lookup k'
        = l.lookup k' := by
  intro l
  induction l with
  | nil => rfl
  | cons p t ih =>
    obtain ⟨a, b⟩ := p
    by_cases ha : a = k
    · rw [List.map_cons, show (if ((a, b) : String × β).1 = k then (k, v)
        else (a, b)) = (k, v) by simp [ha]]
      rw [lookup_cons_ne _ _ h, lookup_cons_ne _ _ (ha ▸ h), ih]
    · rw [List.map_cons, show (if ((a, b) : String × β).1 = k then (k, v)
        else (a, b)) = (a, b) by simp [ha]]
      by_cases hk' : k' = a
      · subst hk'; rw [lookup_cons_self, lookup_cons_self]
      · rw [lookup_cons_ne _ _ hk', lookup_cons_ne _ _ hk', ih]

theorem lookup_map_replace_self {β : Type} (k : String) (v : β) :
    ∀ l : List (String × β), (l.lookup k).isSome →
      (l.map (fun p => if p.1 = k then (k, v) else p)).lookup k = some v := by
  intro l
  induction l with
  | nil => intro h; simp [List.lookup] at h
  | cons p t ih =>
    intro h
    obtain ⟨a, b⟩ := p
    by_cases ha : a = k
    · rw [List.map_cons, show (if ((a, b) : String × β).1 = k then (k, v)
        else (a, b)) = (k, v) by simp [ha]]
      exact lookup_cons_self k v _
    · rw [lookup_cons_ne _ _ (fun he => ha he.symm)] at h
      rw [List.map_cons, show (if ((a, b) : String × β).1 = k then (k, v)
        else (a, b)) = (a, b) by simp [ha]]
      rw [lookup_cons_ne _ _ (fun he => ha he.symm)]
      exact ih h

theorem alistInsert_lookup_self {β : Type} (l : List (String × β))
    (k : String) (v : β) : (alistInsert l k v).lookup k = some v := by
  unfold alistInsert
  by_cases h : (l.lookup k).isSome
  · rw [if_pos h]
    exact lookup_map_replace_self k v l h
  · rw [if_neg h, lookup_append_none _ _ _ (Option.not_isSome_iff_eq_none.mp h)]
    exact lookup_cons_self k v []

theorem alistInsert_lookup_ne {β : Type} (l : List (String × β))
    {k k' : String} (v : β) (h : k' ≠ k) :
    (alistInsert l k v).lookup k' = l.lookup k' := by
  unfold alistInsert
  by_cases hp : (l.lookup k).isSome
  · rw [if_pos hp]
    exact lookup_map_replace_ne k k' v h l
  · rw [if_neg hp]
    induction l with
    | nil => rw [List.nil_append, lookup_cons_ne _ _ h]
    | cons p t ih =>
      obtain ⟨a, b⟩ := p
      rw [List.cons_append]
      by_cases hk' : k' = a
      · subst hk'; rw [lookup_cons_self, lookup_cons_self]
      · rw [lookup_cons_ne _ _ hk', lookup_cons_ne _ _ hk']
        apply ih
        intro hsome
        exact hp (by
          by_cases hka : k = a
          · subst hka; simp [lookup_cons_self]
          · rw [lookup_cons_ne _ _ hka]; exact hsome)

theorem alistErase_lookup_self {β : Type} (l : List (String × β)) (k : String) :
    (alistErase l k).lookup k = none := by
  unfold alistErase
  induction l with
  | nil => rfl
  | cons p t ih =>
    obtain ⟨a, b⟩ := p
    rw [List.filter_cons]
    by_cases hk : a = k
    · rw [show (decide (((a, b) : String × β).1 ≠ k)) = false by simp [hk],
        if_neg (by simp)]
      exact ih
    · rw [show (decide (((a, b) : String × β).1 ≠ k)) = true by simp [hk],
        if_pos rfl]
      rw [lookup_cons_ne _ _ (fun he => hk he.symm)]
      exact ih

theorem alistErase_lookup_ne {β : Type} (l : List (String × β))
    {k k' : String} (h : k' ≠ k) :
    (alistErase l k).lookup k' = l.lookup k' := by
  unfold alistErase
  induction l with
  | nil => rfl
  | cons p t ih =>
    obtain ⟨a, b⟩ := p
    rw [List.filter_cons]
    by_cases hk : a = k
    · rw [show (decide (((a, b) : String × β).1 ≠ k)) = false by simp [hk],
        if_neg (by simp)]
      rw [lookup_cons_ne _ _ (hk ▸ h)]
      exact ih
    · rw [show (decide (((a, b) : String × β).1 ≠ k)) = true by simp [hk],
        if_pos rfl]
      by_cases hk' : k' = a
      · subst hk'; rw [lookup_cons_self, lookup_cons_self]
      · rw [lookup_cons_ne _ _ hk', lookup_cons_ne _ _ hk']
        exact ih

theorem alistInsert_keys_present {β : Type} (l : List (String × β))
    (k : String) (v : β) (h : (l.lookup k).isSome) :
    (alistInsert l k v).map Prod.fst = l.map Prod.fst := by
  unfold alistInsert
  rw [if_pos h, List.map_map]
  apply List.map_congr_left
  intro p _
  by_cases hp : p.1 = k
  · simp [hp]
  · simp [hp]

theorem alistInsert_keys_absent {β : Type} (l : List (String × β))
    (k : String) (v : β) (h : l.lookup k = none) :
    (alistInsert l k v).map Prod.fst = l.map Prod.fst ++ [k] := by
  unfold alistInsert
  rw [if_neg (by simp [h]), List.map_append]
  rfl

theorem alistErase_keys {β : Type} (l : List (String × β)) (k : String) :
    (alistErase l k).map Prod.fst
      = (l.map Prod.fst).filter (fun u => u ≠ k) := by
  unfold alistErase
  induction l with
  | nil => rfl
  | cons p t ih =>
    rw [List.map_cons, List.filter_cons, List.filter_cons]
    by_cases hp : p.1 = k
    · rw [show (decide (p.1 ≠ k)) = false by simp [hp]]
      rw [if_neg (by simp), if_neg (by simp [hp])]
      exact ih
    · rw [show (decide (p.1 ≠ k)) = true by simp [hp], if_pos rfl,
        if_pos (by simp [hp]), List.map_cons, ih]

/-! ## C5 — ADS-B altitude normalization and the emitted CoT point -/

/-- C5 (amended): the *normalized track* altitude prefers `alt_geom`, falls
back to `alt_baro` (each skipped when it equals the string `"ground"`,
so `alt_geom = "ground"` with a numeric `alt_baro` uses `alt_baro`, and the
altitude is `0` only when both are missing or `"ground"`; no `on_ground` flag
exists in the normalized dict), converting feet → meters by `× 0.3048`; the
*CoT point* built by `ADSBTracker.craft_to_cot`, however, carries the selected
altitude in raw feet, so `alt_geom = 1000` yields track altitude `304.8` but
CoT `hae = 1000`. -/
theorem claim_C5 (a : AdsbAircraft) (p : ParsedAdsb)
    (hp : parse_adsb_aircraft a = some p) :
    (∀ v, a.alt_geom = some (AltField.num v) → p.alt = v * 0.3048) ∧
    ((a.alt_geom = none ∨ a.alt_geom = some AltField.ground) →
      ∀ v, a.alt_baro = some (AltField.num v) → p.alt = v * 0.3048) ∧
    ((a.alt_geom = none ∨ a.alt_geom = some AltField.ground) →
      (a.alt_baro = none ∨ a.alt_baro = some AltField.ground) → p.alt = 0) ∧
    (∀ pre v c, a.alt_geom = some (AltField.num v) →
      craft_to_cot pre a = some c → c.hae = v) := by
  match hhex : a.hex with
  | none => rw [parse_adsb_aircraft, hhex] at hp; exact absurd hp (by simp)
  | some icao =>
    simp only [parse_adsb_aircraft, hhex] at hp
    by_cases hic : icao = ""
    · rw [if_pos hic] at hp; exact absurd hp (by simp)
    · rw [if_neg hic, Option.some_inj] at hp
      subst hp
      refine ⟨?_, ?_, ?_, ?_⟩
      · intro v hv; simp only [hv]
      · rintro (hg | hg) v hv <;> simp only [hg, hv]
      · rintro (hg | hg) (hb | hb) <;> simp only [hg, hb]
      · intro pre v c hv hc
        rw [craft_to_cot] at hc
        match hla : a.lat, hlo : a.lon with
        | none, _ => rw [hla] at hc; simp at hc
        | some la, none => rw [hla, hlo] at hc; simp at hc
        | some la, some lo =>
          rw [hla, hlo] at hc
          match hmu : make_uid pre a with
          | none => rw [hmu] at hc; simp at hc
          | some uid =>
            rw [hmu, hv] at hc
            simp only [Option.some_inj] at hc
            subst hc
            rfl

/-- C5 witness: the §8 scenario-3 craft, evaluated. -/
theorem claim_C5_witness :
    parse_adsb_aircraft exCraft = some pEx ∧
    exCraft.alt_geom = some (AltField.num 1000) ∧
    pEx.alt = 1000 * 0.3048 :=
  ⟨by with_unfolding_all rfl, rfl,
    (claim_C5 exCraft pEx (by with_unfolding_all rfl)).1 1000 rfl⟩

/-- C5 counterexample: for `alt_geom = 1000` the emitted CoT point carries
`hae = 1000` (raw feet), not `≈ 304.8` m — the claimed conversion holds for
the normalized track but not for the CoT point; and `alt_geom = "ground"`
with `alt_baro = 500` yields altitude `152.4`, not `0`. -/
theorem claim_C5_cex :
    (craft_to_cot "adsb-" exCraft).map AdsbCot.hae = some 1000 ∧
    (parse_adsb_aircraft exCraft).map ParsedAdsb.alt = some (304.8 : ℚ) ∧
    (1000 : ℚ) ≠ 304.8 ∧
    (parse_adsb_aircraft groundCraft).map ParsedAdsb.alt = some (152.4 : ℚ) ∧
    (152.4 : ℚ) ≠ 0 :=
  ⟨by with_unfolding_all rfl, by with_unfolding_all rfl, by norm_num,
    by with_unfolding_all rfl, by norm_num⟩

/-! ## C6 — rejection of observations without a position -/

/-- C6 (amended): `ADSBTracker.craft_to_cot` rejects a craft with missing
lat/lon (no CoT event), and the FPV worker skips an alert whose anchor cannot
be resolved (no sensor position and no system position), but
`parse_adsb_aircraft` does *not* reject a missing position: it returns a
normalized dict with `lat = lon = 0.0`. -/
theorem claim_C6 :
    (∀ pre a, (a.lat = none ∨ a.lon = none) → craft_to_cot pre a = none) ∧
    (∀ (digest : String → Fin 256 × Fin 256) (radius : ℝ) (uid : String)
      sLat sLon sAlt, (sLat = none ∨ sLon = none) →
      fpvPlot digest radius uid sLat sLon sAlt none = none) ∧
    (∀ a p, (a.lat = none ∨ a.lon = none) → parse_adsb_aircraft a = some p →
      p.lat = 0 ∧ p.lon = 0) := by
  refine ⟨?_, ?_, ?_⟩
  · intro pre a h
    rcases h with h | h
    · cases hlo : a.lon <;> simp [craft_to_cot, h, hlo]
    · cases hla : a.lat <;> simp [craft_to_cot, h, hla]
  · intro digest radius uid sLat sLon sAlt h
    rcases h with h | h
    · cases hlo : sLon <;> simp [fpvPlot, resolveAnchor, h, hlo]
    · cases hla : sLat <;> simp [fpvPlot, resolveAnchor, h, hla]
  · intro a p h hp
    match hhex : a.hex with
    | none => rw [parse_adsb_aircraft, hhex] at hp; exact absurd hp (by simp)
    | some icao =>
      simp only [parse_adsb_aircraft, hhex] at hp
      by_cases hic : icao = ""
      · rw [if_pos hic] at hp; exact absurd hp (by simp)
      · rw [if_neg hic, Option.some_inj] at hp
        subst hp
        rcases h with h | h
        · constructor <;> simp [h]
        · cases hla : a.lat <;> constructor <;> simp [h, hla]

/-- C6 witness: the three branches applied at concrete inputs. -/
theorem claim_C6_witness :
    craft_to_cot "adsb-" noPosCraft = none ∧
    fpvPlot (fun _ => (0, 0)) 15 "fpv-alert-5800MHz" none none none none
      = none ∧
    (parse_adsb_aircraft noPosCraft = some pNoPos ∧
      pNoPos.lat = 0 ∧ pNoPos.lon = 0) :=
  ⟨claim_C6.1 "adsb-" noPosCraft (Or.inl rfl),
    claim_C6.2.1 (fun _ => (0, 0)) 15 "fpv-alert-5800MHz" none none none
      (Or.inl rfl),
    ⟨by with_unfolding_all rfl,
      claim_C6.2.2 noPosCraft pNoPos (Or.inl rfl)
        (by with_unfolding_all rfl)⟩⟩

/-- C6 counterexample: an aircraft message with `hex` but no lat/lon is *not*
rejected by the normalizer — it yields a dict with `lat = lon = 0.0` (the
source comments: "still track but mark as invalid position"). -/
theorem claim_C6_cex :
    parse_adsb_aircraft noPosCraft ≠ none ∧
    (parse_adsb_aircraft noPosCraft).map ParsedAdsb.lat = some 0 ∧
    (parse_adsb_aircraft noPosCraft).map ParsedAdsb.lon = some 0 :=
  ⟨by with_unfolding_all decide, by with_unfolding_all rfl,
    by with_unfolding_all rfl⟩

/-! ## C9 — FPV offset determinism and radius bound -/

/-- C9: the plotted FPV position is a deterministic function of
`(uid, anchor, radius)` — two ingestions resolving to the same anchor
lat/lon plot the identical point — and in the flat-earth
meters-per-degree approximation the plotted point is offset from the anchor
by at most the configured radius. -/
theorem claim_C9 :
    (∀ (digest : String → Fin 256 × Fin 256) (radius : ℝ) (uid : String)
      sLat sLon sAlt sys sLat' sLon' sAlt' sys' a a',
      resolveAnchor sLat sLon sAlt sys = some a →
      resolveAnchor sLat' sLon' sAlt' sys' = some a' →
      a.1 = a'.1 → a.2.1 = a'.2.1 →
      fpvPlot digest radius uid sLat sLon sAlt sys =
        fpvPlot digest radius uid sLat' sLon' sAlt' sys') ∧
    (∀ (digest : String → Fin 256 × Fin 256) (lat lon radius : ℝ)
      (seed : String), 0 ≤ radius →
      Real.sqrt ((((offset_latlon digest lat lon radius seed).1 - lat)
          * 111320) ^ 2 +
        (((offset_latlon digest lat lon radius seed).2 - lon)
          * (111320 * max (Real.cos (lat * Real.pi / 180)) 1e-6)) ^ 2)
        ≤ radius) := by
  constructor
  · intro digest radius uid sLat sLon sAlt sys sLat' sLon' sAlt' sys' a a'
      ha ha' h1 h2
    rw [fpvPlot, fpvPlot, ha, ha']
    dsimp only
    rw [h1, h2]
  · intro digest lat lon radius seed hr
    have hM₂ : (0 : ℝ) < 111320 * max (Real.cos (lat * Real.pi / 180)) 1e-6 :=
      mul_pos (by norm_num)
        (lt_of_lt_of_le (by norm_num) (le_max_right _ _))
    rw [offset_latlon]
    dsimp only
    have hlat : ∀ dn : ℝ, (lat + dn / 111320 - lat) * 111320 = dn := by
      intro dn
      field_simp
      ring
    have hlon : ∀ de : ℝ,
        (lon + de / (111320 * max (Real.cos (lat * Real.pi / 180)) 1e-6)
          - lon) * (111320 * max (Real.cos (lat * Real.pi / 180)) 1e-6)
          = de := by
      intro de
      field_simp
      ring
    rw [hlat, hlon]
    rw [stable_offset]
    by_cases h0 : radius ≤ 0
    · rw [if_pos h0]
      simpa using hr
    · rw [if_neg h0]
      dsimp only
      set b₂ : ℝ := (((digest seed).2 : ℕ) : ℝ) with hb₂
      set ang : ℝ := (((digest seed).1 : ℕ) : ℝ) / 255 * (2 * Real.pi)
      have hd0 : (0 : ℝ) ≤ b₂ / 255 * radius := by
        apply mul_nonneg _ hr
        positivity
      have hsq : (Real.cos ang * (b₂ / 255 * radius)) ^ 2 +
          (Real.sin ang * (b₂ / 255 * radius)) ^ 2
          = (b₂ / 255 * radius) ^ 2 := by
        have h := Real.sin_sq_add_cos_sq ang
        nlinarith [h]
      rw [hsq, Real.sqrt_sq hd0]
      have hb : b₂ ≤ 255 := by
        rw [hb₂]
        have h1 := (digest seed).2.isLt
        have h2 : ((digest seed).2 : ℕ) ≤ 255 := Nat.lt_succ_iff.mp h1
        exact_mod_cast h2
      have hq : b₂ / 255 ≤ 1 := by
        rw [div_le_one (by norm_num)]
        exact hb
      calc b₂ / 255 * radius ≤ 1 * radius :=
            mul_le_mul_of_nonneg_right hq hr
      _ = radius := one_mul radius

/-- C9 witness: the determinism part at two alerts sharing the uid and the
anchor (but different altitudes), and the radius bound at the default
15-meter radius. -/
theorem claim_C9_witness :
    (fpvPlot dg0 15 "fpv-alert-5800MHz" (some 1) (some 2) none none =
      fpvPlot dg0 15 "fpv-alert-5800MHz" (some 1) (some 2) (some 7) none) ∧
    (0 ≤ (15 : ℝ) ∧
      Real.sqrt ((((offset_latlon dg0 0 0 15 "fpv-alert-5800MHz").1 - 0)
          * 111320) ^ 2 +
        (((offset_latlon dg0 0 0 15 "fpv-alert-5800MHz").2 - 0)
          * (111320 * max (Real.cos (0 * Real.pi / 180)) 1e-6)) ^ 2)
        ≤ 15) :=
  ⟨claim_C9.1 dg0 15 "fpv-alert-5800MHz" (some 1) (some 2) none none
      (some 1) (some 2) (some 7) none (1, 2, 0) (1, 2, 7) rfl rfl rfl rfl,
    by norm_num,
    claim_C9.2 dg0 0 0 15 "fpv-alert-5800MHz" (by norm_num)⟩

theorem alistInsert_length_absent {β : Type} (l : List (String × β))
    (k : String) (v : β) (h : l.lookup k = none) :
    (alistInsert l k v).length = l.length + 1 := by
  unfold alistInsert
  rw [if_neg (by simp [h]), List.length_append]
  rfl

theorem evictOldestGo_macState (trustedOnly : Bool) :
    ∀ (n : Nat) (m : Mgr),
      (evictOldestGo trustedOnly m n).1.macState = m.macState := by
  intro n
  induction n with
  | zero => intro m; rfl
  | succ k ih =>
    intro m
    rw [evictOldestGo]
    match m.drones with
    | [] => rfl
    | c :: rest =>
      dsimp only
      by_cases ht : trustedOnly ≠ m.trustedIds.contains c
      · rw [if_pos ht]; exact ih _
      · rw [if_neg ht]; rfl

theorem admitPools_macState (m : Mgr) (uid : String) (data : DroneRec)
    (trusted : Bool) :
    (m.admitPools uid data trusted).1.macState = m.macState := by
  unfold Mgr.admitPools
  dsimp only
  split <;> split
  · split
    · exact evictOldestGo_macState true _ m
    · exact evictOldestGo_macState true _ m
  · rfl
  · split
    · exact evictOldestGo_macState false _ m
    · exact evictOldestGo_macState false _ m
  · rfl

theorem admitNewDrone_macless (m : Mgr) (uid : String) (data : DroneRec)
    (now : ℚ) (h : data.mac = "") :
    m.admitNewDrone uid data now = m.admitPools uid data data.ridSuccess := by
  unfold Mgr.admitNewDrone
  simp [h]

theorem admitAllMacless_ok (data : DroneRec) (now : ℚ) :
    ∀ (uids : List String) (m : Mgr), uids.Nodup →
      m.trustedIds = [] →
      (∀ u ∈ uids, m.droneDict.lookup u = none) →
      (m.droneDict.length : ℤ) + uids.length ≤ (m.maxOpportunistic : ℤ) →
      (admitAllMacless data now m uids).2 = true := by
  intro uids
  induction uids with
  | nil => intro m _ _ _ _; rfl
  | cons u rest ih =>
    intro m hnd htr hfresh hlen
    have hu : m.droneDict.lookup u = none := hfresh u (List.mem_cons_self u rest)
    rw [admitAllMacless]
    dsimp only
    set data' : DroneRec := { data with mac := "", ridSuccess := false }
      with hdata'
    have hstep : m.updateOrAdd u data' now = m.admitPools u data' false := by
      rw [Mgr.updateOrAdd, hu]
      dsimp only
      rw [admitNewDrone_macless m u data' now rfl]
    have hopp : ¬ ((m.droneDict.length : ℤ) - (m.trustedIds.length : ℤ)
        ≥ (m.maxOpportunistic : ℤ)) := by
      rw [htr]
      push_neg
      simp only [List.length_nil, Nat.cast_zero, sub_zero,
        List.length_cons] at hlen ⊢
      push_cast at hlen ⊢
      omega
    have hpools : m.admitPools u data' false
        = (m.admitFinal u data' false, true) := by
      rw [Mgr.admitPools]
      dsimp only
      rw [if_neg hopp]
      simp
    rw [hstep, hpools]
    dsimp only
    have ht₁ : (m.admitFinal u data' false).trustedIds = [] := htr
    have hd₁ : (m.admitFinal u data' false).droneDict
        = alistInsert m.droneDict u { data' with lastSentTime := 0 } := rfl
    have hres := ih (m.admitFinal u data' false) (List.nodup_cons.mp hnd).2 ht₁
      (by
        intro v hv
        rw [hd₁]
        rw [alistInsert_lookup_ne _ _
          (fun he => (List.nodup_cons.mp hnd).1 (by rwa [he] at hv))]
        exact hfresh v (List.mem_cons_of_mem u hv))
      (by
        rw [hd₁, alistInsert_length_absent _ _ _ hu]
        push_cast
        push_cast [List.length_cons] at hlen
        have : (m.admitFinal u data' false).maxOpportunistic
            = m.maxOpportunistic := rfl
        rw [this]
        omega)
    rw [hres]
    simp


/-! ## C10 — blank-MAC admissions bypass the MAC-spam guard -/

/-- C10: a new-uid admission whose drone data carries an empty MAC skips the
MAC-spam guard entirely — the sliding window and backoff maps are untouched
and the outcome is exactly the pool-capacity decision — and consequently any
number of distinct no-MAC uids up to the opportunistic pool capacity are all
admitted. -/
theorem claim_C10 :
    (∀ (m : Mgr) (uid : String) (data : DroneRec) (now : ℚ), data.mac = "" →
      m.admitNewDrone uid data now = m.admitPools uid data data.ridSuccess ∧
      (m.admitNewDrone uid data now).1.macState = m.macState) ∧
    (∀ (n : Nat) (rl it : ℚ) (hm : Bool) (sinks : List Sink)
      (uids : List String) (data : DroneRec) (now : ℚ),
      uids.Nodup → uids.length ≤ n →
      (admitAllMacless data now (Mgr.init n rl it hm sinks) uids).2 = true) := by
  constructor
  · intro m uid data now h
    refine ⟨admitNewDrone_macless m uid data now h, ?_⟩
    rw [admitNewDrone_macless m uid data now h]
    exact admitPools_macState m uid data data.ridSuccess
  · intro n rl it hm sinks uids data now hnd hlen
    apply admitAllMacless_ok data now uids (Mgr.init n rl it hm sinks) hnd rfl
    · intro u _
      rfl
    · simp only [Mgr.init, List.length_nil, Nat.cast_zero, zero_add]
      exact_mod_cast hlen

/-- C10 witness: a blank-MAC admission and three fresh no-MAC uids admitted
into a 3-slot manager. -/
theorem claim_C10_witness :
    (dr0.mac = "" ∧
      (Mgr.init 1 1 60 true []).admitNewDrone "drone-A" dr0 0
        = (Mgr.init 1 1 60 true []).admitPools "drone-A" dr0 dr0.ridSuccess) ∧
    (["drone-a", "drone-b", "drone-c"].Nodup ∧
      (admitAllMacless dr0 0 (Mgr.init 3 1 60 true [])
        ["drone-a", "drone-b", "drone-c"]).2 = true) :=
  ⟨⟨rfl, (claim_C10.1 (Mgr.init 1 1 60 true []) "drone-A" dr0 0 rfl).1⟩,
    ⟨by decide, claim_C10.2 3 1 60 true [] ["drone-a", "drone-b", "drone-c"]
      dr0 0 (by decide) (by decide)⟩⟩

/-! ## C7 — fallback course derivation -/

theorem pyMod_nonneg (x m : ℝ) (hm : 0 < m) : 0 ≤ pyMod x m := by
  unfold pyMod
  have h := Int.sub_floor_div_mul_nonneg x hm
  simpa [mul_comm] using h

theorem pyMod_lt (x m : ℝ) (hm : 0 < m) : pyMod x m < m := by
  unfold pyMod
  have h := Int.sub_floor_div_mul_lt x hm
  simpa [mul_comm] using h

theorem spec_bearing_eq_fallback :
    specGreatCircleBearing = fallbackBearing := by
  funext lat1 lon1 lat2 lon2
  rfl

theorem sin_pi_div_180_pos : 0 < Real.sin (Real.pi / 180) := by
  apply Real.sin_pos_of_pos_of_lt_pi
  · positivity
  · linarith [Real.pi_pos]

theorem bearing_east : fallbackBearing 0 0 0 1 = 90 := by
  unfold fallbackBearing radians degrees atan2
  dsimp only
  have h0 : (0:ℝ) * Real.pi / 180 = 0 := by ring
  have h1 : (1:ℝ) * Real.pi / 180 = Real.pi / 180 := by ring
  rw [h0, h1]
  simp only [sub_zero, Real.cos_zero, Real.sin_zero, mul_one, zero_mul,
    mul_zero, sub_zero, zero_sub, one_mul]
  have harg : Complex.arg ⟨0, Real.sin (Real.pi / 180)⟩ = Real.pi / 2 :=
    Complex.arg_eq_pi_div_two_iff.mpr ⟨rfl, sin_pi_div_180_pos⟩
  rw [harg]
  have hdeg : Real.pi / 2 * 180 / Real.pi = 90 := by
    field_simp
    ring
  rw [hdeg]
  unfold pyMod
  have hfl : ⌊(90 + 360 : ℝ) / 360⌋ = 1 := by
    apply Int.floor_eq_iff.mpr
    constructor <;> norm_num
  rw [hfl]
  norm_num

theorem bearing_north : specGreatCircleBearing 0 1 1 1 = 0 := by
  unfold specGreatCircleBearing radians degrees atan2
  dsimp only
  have h1 : (1:ℝ) * Real.pi / 180 = Real.pi / 180 := by ring
  have h0 : (0:ℝ) * Real.pi / 180 = 0 := by ring
  rw [h0, h1, sub_self]
  simp only [Real.sin_zero, Real.cos_zero, zero_mul, one_mul, mul_one,
    Real.cos_zero, sub_zero, mul_zero]
  have hre : (Real.cos 0 * Real.sin (Real.pi / 180)
      - Real.sin 0 * Real.cos (Real.pi / 180) * Real.cos 0)
      = Real.sin (Real.pi / 180) := by
    simp
  have harg : Complex.arg ⟨Real.sin (Real.pi / 180), 0⟩ = 0 := by
    rw [Complex.arg_eq_zero_iff]
    exact ⟨le_of_lt sin_pi_div_180_pos, rfl⟩
  rw [harg]
  rw [zero_mul, zero_div, zero_add]
  unfold pyMod
  rw [show (360:ℝ)/360 = 1 by norm_num, Int.floor_one]
  norm_num





/-- C7 (amended): on the *first* course-less position update the stored
course is set to the great-circle bearing
`atan2(sin Δλ·cos φ₂, cos φ₁·sin φ₂ − sin φ₁·cos φ₂·cos Δλ)` between the
pre-update and post-update positions, normalized to `[0, 360)` (and exactly
equal to the spec formula, hence within 1e-6); a *second* course-less update
leaves the stored course unchanged — the fallback only runs while the stored
course is unset, so after two updates the course reflects the first two
positions, not the last two. -/
theorem claim_C7 (d : DronePos) (lat₁ lon₁ lat₂ lon₂ : ℝ)
    (h : d.direction = none) :
    (droneUpdate d lat₁ lon₁ none).direction
      = some (specGreatCircleBearing d.lat d.lon lat₁ lon₁) ∧
    (droneUpdate (droneUpdate d lat₁ lon₁ none) lat₂ lon₂ none).direction
      = (droneUpdate d lat₁ lon₁ none).direction ∧
    (∀ c, (droneUpdate d lat₁ lon₁ none).direction = some c →
      0 ≤ c ∧ c < 360 ∧
      |c - specGreatCircleBearing d.lat d.lon lat₁ lon₁| ≤ 1e-6) := by
  have h₁ : (droneUpdate d lat₁ lon₁ none).direction
      = some (fallbackBearing d.lat d.lon lat₁ lon₁) := by
    unfold droneUpdate
    dsimp only
    rw [h]
  refine ⟨by rw [h₁, spec_bearing_eq_fallback], ?_, ?_⟩
  · conv_lhs => rw [droneUpdate]
    dsimp only
    rw [h₁]
  · intro c hc
    rw [h₁, Option.some_inj] at hc
    subst hc
    rw [spec_bearing_eq_fallback]
    refine ⟨?_, ?_, by rw [sub_self, abs_zero]; norm_num⟩
    · exact pyMod_nonneg _ _ (by norm_num)
    · exact pyMod_lt _ _ (by norm_num)

/-- C7 counterexample: start at (0,0), update to (0,1) then to (1,1) with no
source course.  The previous/current positions are (0,1)/(1,1), whose
normalized great-circle bearing is 0, but the stored course is 90 (frozen
from the first leg), and |90 − 0| is far above 1e-6. -/
theorem claim_C7_cex :
    (droneUpdate (droneUpdate (DronePos.mk0 0 0 none) 0 1 none)
      1 1 none).direction = some 90 ∧
    (droneUpdate (droneUpdate (DronePos.mk0 0 0 none) 0 1 none)
      1 1 none).prevLat = some 0 ∧
    (droneUpdate (droneUpdate (DronePos.mk0 0 0 none) 0 1 none)
      1 1 none).prevLon = some 1 ∧
    specGreatCircleBearing 0 1 1 1 = 0 ∧
    ¬ |(90 : ℝ) - 0| ≤ 1e-6 := by
  refine ⟨?_, rfl, rfl, bearing_north, by norm_num⟩
  have h₂ : (droneUpdate (droneUpdate (DronePos.mk0 0 0 none) 0 1 none)
      1 1 none).direction
      = (droneUpdate (DronePos.mk0 0 0 none) 0 1 none).direction := rfl
  have h₁ : (droneUpdate (DronePos.mk0 0 0 none) 0 1 none).direction
      = some (fallbackBearing 0 0 0 1) := rfl
  rw [h₂, h₁, bearing_east]

/-- C7 witness: one course-less update from (0,0) to (0,1). -/
theorem claim_C7_witness :
    (DronePos.mk0 0 0 none).direction = none ∧
    (droneUpdate (DronePos.mk0 0 0 none) 0 1 none).direction
      = some (specGreatCircleBearing 0 0 0 1) ∧
    (0 ≤ specGreatCircleBearing 0 0 0 1 ∧
      specGreatCircleBearing 0 0 0 1 < 360 ∧
      |specGreatCircleBearing 0 0 0 1 - specGreatCircleBearing 0 0 0 1|
        ≤ 1e-6) :=
  ⟨rfl, (claim_C7 (DronePos.mk0 0 0 none) 0 1 0 1 rfl).1,
    (claim_C7 (DronePos.mk0 0 0 none) 0 1 0 1 rfl).2.2 _
      (claim_C7 (DronePos.mk0 0 0 none) 0 1 0 1 rfl).1⟩

/-! ## C8 — SignalAlert store: capacity, TTL, eviction order -/

theorem lookup_filter_none {β : Type} (P : String × β → Bool)
    (s : List (String × β)) (u : String) (h : s.lookup u = none) :
    (s.filter P).lookup u = none := by
  induction s with
  | nil => rfl
  | cons p t ih =>
    obtain ⟨a, b⟩ := p
    by_cases hu : u = a
    · subst hu; rw [lookup_cons_self] at h; cases h
    · rw [lookup_cons_ne _ _ hu] at h
      rw [List.filter_cons]
      split
      · rw [lookup_cons_ne _ _ hu]
        exact ih h
      · exact ih h

theorem lookup_filter_keysNodup {β : Type} (P : String × β → Bool)
    (s : List (String × β)) (hnd : (s.map Prod.fst).Nodup) (u : String) :
    (s.filter P).lookup u
      = match s.lookup u with
        | some e => if P (u, e) then some e else none
        | none => none := by
  induction s with
  | nil => rfl
  | cons p t ih =>
    obtain ⟨a, b⟩ := p
    rw [List.map_cons, List.nodup_cons] at hnd
    rw [List.filter_cons]
    by_cases hu : u = a
    · subst hu
      rw [lookup_cons_self]
      have htn : t.lookup u = none := by
        rw [← Option.not_isSome_iff_eq_none, lookup_isSome_iff_mem_keys]
        exact hnd.1
      split
      · next hP =>
        rw [lookup_cons_self]
        simp only [hP, if_true]
      · next hP =>
        rw [lookup_filter_none P t u htn]
        simp only [Bool.not_eq_true] at hP
        simp [hP]
    · rw [lookup_cons_ne _ _ hu]
      split
      · rw [lookup_cons_ne _ _ hu]
        exact ih hnd.2
      · exact ih hnd.2

theorem mem_expired_iff {β : Type} (P : String × β → Bool)
    (s : List (String × β)) (hnd : (s.map Prod.fst).Nodup) (u : String)
    (e : β) (h : s.lookup u = some e) :
    u ∈ (s.filter P).map Prod.fst ↔ P (u, e) = true := by
  rw [← lookup_isSome_iff_mem_keys, lookup_filter_keysNodup P s hnd u, h]
  split <;> simp_all

theorem alistErase_of_none {β : Type} (s : List (String × β)) (k : String)
    (h : s.lookup k = none) : alistErase s k = s := by
  unfold alistErase
  induction s with
  | nil => rfl
  | cons p t ih =>
    obtain ⟨a, b⟩ := p
    by_cases hk : k = a
    · subst hk; rw [lookup_cons_self] at h; cases h
    · rw [lookup_cons_ne _ _ hk] at h
      rw [List.filter_cons, if_pos (decide_eq_true (Ne.symm hk))]
      rw [ih h]

theorem alistErase_length_le {β : Type} (s : List (String × β)) (k : String) :
    (alistErase s k).length ≤ s.length :=
  List.length_filter_le _ s

theorem keys_filter_ne_length (k : String) :
    ∀ (l : List String), l.Nodup → k ∈ l →
      (l.filter (fun u => u ≠ k)).length = l.length - 1 := by
  intro l
  induction l with
  | nil => intro _ hk; cases hk
  | cons a t ih =>
    intro hnd hk
    rw [List.nodup_cons] at hnd
    rw [List.filter_cons]
    by_cases ha : a = k
    · subst ha
      rw [if_neg (by simp)]
      rw [List.filter_eq_self.mpr]
      · simp
      · intro x hx
        exact decide_eq_true (fun he => hnd.1 (he ▸ hx))
    · rw [if_pos (decide_eq_true ha)]
      have hkt : k ∈ t := by
        rcases List.mem_cons.mp hk with h | h
        · exact absurd h.symm ha
        · exact h
      rw [List.length_cons, ih hnd.2 hkt, List.length_cons]
      have := List.length_pos.mpr (List.ne_nil_of_mem hkt)
      omega

theorem alistErase_length_isSome {β : Type} (s : List (String × β))
    (k : String) (hnd : (s.map Prod.fst).Nodup) (h : (s.lookup k).isSome) :
    (alistErase s k).length = s.length - 1 := by
  have h1 : (alistErase s k).length = ((alistErase s k).map Prod.fst).length :=
    (List.length_map _ _).symm
  have h2 : s.length = (s.map Prod.fst).length := (List.length_map _ _).symm
  rw [h1, alistErase_keys, h2]
  exact keys_filter_ne_length k _ hnd ((lookup_isSome_iff_mem_keys s k).mp h)

theorem alistErase_keysNodup {β : Type} (s : List (String × β)) (k : String)
    (hnd : (s.map Prod.fst).Nodup) :
    ((alistErase s k).map Prod.fst).Nodup := by
  rw [alistErase_keys]
  exact List.Nodup.filter _ hnd





theorem lookup_mem {β : Type} {l : List (String × β)} {k : String} {v : β}
    (h : l.lookup k = some v) : (k, v) ∈ l := by
  induction l with
  | nil => cases h
  | cons p t ih =>
    obtain ⟨a, b⟩ := p
    by_cases hk : k = a
    · subst hk
      rw [lookup_cons_self] at h
      cases h
      exact List.mem_cons_self _ _
    · rw [lookup_cons_ne _ _ hk] at h
      exact List.mem_cons_of_mem _ (ih h)

theorem sigPruneOver_eq (max : Nat) (o : List String)
    (s : List (String × ℚ)) :
    sigPruneOver max o s
      = if s.length ≤ max then (o, s)
        else
          match o with
          | [] => ([], s)
          | h :: t => sigPruneOver max t (alistErase s h) := by
  conv_lhs => rw [sigPruneOver.eq_def]

theorem sigPruneOver_le (max : Nat) :
    ∀ (o : List String) (s : List (String × ℚ)),
      (s.map Prod.fst).Nodup → s.length ≤ max + 1 →
      (s.length = max + 1 → ∃ w ∈ o, (s.lookup w).isSome) →
      (sigPruneOver max o s).2.length ≤ max := by
  intro o
  induction o with
  | nil =>
    intro s hnd hle hw
    rw [sigPruneOver]
    by_cases h : s.length ≤ max
    · rw [if_pos h]; exact h
    · exfalso
      obtain ⟨w, hmem, _⟩ := hw (by omega)
      cases hmem
  | cons h t ih =>
    intro s hnd hle hw
    rw [sigPruneOver]
    by_cases hl : s.length ≤ max
    · rw [if_pos hl]; exact hl
    · rw [if_neg hl]
      have hlen : s.length = max + 1 := by omega
      by_cases hh : (s.lookup h).isSome
      · have herase : (alistErase s h).length = max := by
          rw [alistErase_length_isSome s h hnd hh, hlen]
          omega
        rw [sigPruneOver_eq, if_pos (le_of_eq herase)]
        exact le_of_eq herase
      · have hnone := Option.not_isSome_iff_eq_none.mp hh
        rw [alistErase_of_none s h hnone]
        apply ih s hnd hle
        intro hl2
        obtain ⟨w, hmem, hsome⟩ := hw hl2
        rcases List.mem_cons.mp hmem with he | he
        · subst he; exact absurd hsome hh
        · exact ⟨w, he, hsome⟩

theorem sigPruneOver_inv (max : Nat) :
    ∀ (o : List String) (s : List (String × ℚ)),
      o.Nodup → (s.map Prod.fst).Nodup → (∀ u ∈ o, (s.lookup u).isSome) →
      ((sigPruneOver max o s).1.Nodup ∧
        ((sigPruneOver max o s).2.map Prod.fst).Nodup ∧
        (∀ u ∈ (sigPruneOver max o s).1,
          ((sigPruneOver max o s).2.lookup u).isSome)) := by
  intro o
  induction o with
  | nil =>
    intro s hord hkeys hmem
    rw [sigPruneOver]
    by_cases h : s.length ≤ max
    · rw [if_pos h]; exact ⟨hord, hkeys, hmem⟩
    · rw [if_neg h]
      exact ⟨List.nodup_nil, hkeys, by intro u hu; cases hu⟩
  | cons h t ih =>
    intro s hord hkeys hmem
    rw [sigPruneOver]
    by_cases hl : s.length ≤ max
    · rw [if_pos hl]; exact ⟨hord, hkeys, hmem⟩
    · rw [if_neg hl]
      rw [List.nodup_cons] at hord
      apply ih (alistErase s h) hord.2 (alistErase_keysNodup s h hkeys)
      intro u hu
      rw [alistErase_lookup_ne s (fun he => hord.1 (by rwa [he] at hu))]
      exact hmem u (List.mem_cons_of_mem _ hu)

theorem sigPruneOver_lookup (max : Nat) (uid : String) :
    ∀ (o : List String) (s : List (String × ℚ)),
      (sigPruneOver max o s).2.lookup uid = s.lookup uid ∨
      (sigPruneOver max o s).2.lookup uid = none := by
  intro o
  induction o with
  | nil =>
    intro s
    rw [sigPruneOver]
    by_cases h : s.length ≤ max
    · rw [if_pos h]; exact Or.inl rfl
    · rw [if_neg h]; exact Or.inl rfl
  | cons h t ih =>
    intro s
    rw [sigPruneOver]
    by_cases hl : s.length ≤ max
    · rw [if_pos hl]; exact Or.inl rfl
    · rw [if_neg hl]
      by_cases hu : uid = h
      · subst hu
        rcases ih (alistErase s uid) with he | he
        · rw [he, alistErase_lookup_self]
          exact Or.inr rfl
        · exact Or.inr he
      · rcases ih (alistErase s h) with he | he
        · rw [he, alistErase_lookup_ne s hu]
          exact Or.inl rfl
        · exact Or.inr he





theorem prune_eq (m : SigMgr) (now : ℚ) :
    m.prune now = { m with
      signals := (sigPruneOver m.maxSignals
        (m.order.filter (fun u =>
          u ∉ (m.signals.filter (fun p => p.2 ≤ now)).map Prod.fst))
        (m.signals.filter (fun p => ¬ p.2 ≤ now))).2,
      order := (sigPruneOver m.maxSignals
        (m.order.filter (fun u =>
          u ∉ (m.signals.filter (fun p => p.2 ≤ now)).map Prod.fst))
        (m.signals.filter (fun p => ¬ p.2 ≤ now))).1 } := rfl

theorem prune_SigInv (m : SigMgr) (now : ℚ)
    (hord : m.order.Nodup)
    (hmem : ∀ u ∈ m.order, (m.signals.lookup u).isSome)
    (hkeys : (m.signals.map Prod.fst).Nodup)
    (hlen : m.signals.length ≤ m.maxSignals + 1)
    (hw : m.signals.length = m.maxSignals + 1 →
      ∃ w ∈ m.order, (m.signals.lookup w).isSome) :
    SigInv (m.prune now) := by
  rw [prune_eq]
  set expired := (m.signals.filter (fun p => p.2 ≤ now)).map Prod.fst
    with hexp
  set s₁ := m.signals.filter (fun p => ¬ p.2 ≤ now) with hs₁
  set o₁ := m.order.filter (fun u => u ∉ expired) with ho₁
  have hs₁keys : (s₁.map Prod.fst).Nodup :=
    ((List.filter_sublist m.signals).map Prod.fst).nodup hkeys
  have ho₁nd : o₁.Nodup := hord.filter _
  have hmem₁ : ∀ u ∈ o₁, (s₁.lookup u).isSome := by
    intro u hu
    rw [ho₁, List.mem_filter] at hu
    obtain ⟨e, he⟩ := Option.isSome_iff_exists.mp (hmem u hu.1)
    have hne : ¬ (e ≤ now) := by
      intro hle2
      have := (mem_expired_iff (fun p => p.2 ≤ now) m.signals hkeys u e he).mpr
        (by simpa using hle2)
      simp only [decide_eq_true_eq] at hu
      exact hu.2 this
    rw [hs₁, lookup_filter_keysNodup _ _ hkeys, he]
    simp [hne]
  have hs₁len : s₁.length ≤ m.signals.length := List.length_filter_le _ _
  refine ⟨(sigPruneOver_inv _ o₁ s₁ ho₁nd hs₁keys hmem₁).1,
    (sigPruneOver_inv _ o₁ s₁ ho₁nd hs₁keys hmem₁).2.2,
    (sigPruneOver_inv _ o₁ s₁ ho₁nd hs₁keys hmem₁).2.1,
    ?_⟩
  apply sigPruneOver_le _ o₁ s₁ hs₁keys (by omega)
  intro hfull
  have hslen : m.signals.length = m.maxSignals + 1 := by omega
  obtain ⟨w, hwmem, hwsome⟩ := hw hslen
  obtain ⟨e, he⟩ := Option.isSome_iff_exists.mp hwsome
  have hnoexp : ¬ (e ≤ now) := by
    intro hle2
    have hlt : s₁.length < m.signals.length := by
      rw [hs₁]
      apply List.length_filter_lt_length_iff_exists.mpr
      exact ⟨(w, e), lookup_mem he, by simpa using hle2⟩
    omega
  refine ⟨w, ?_, ?_⟩
  · rw [ho₁, List.mem_filter]
    refine ⟨hwmem, ?_⟩
    simp only [decide_eq_true_eq]
    intro hwm
    rw [hexp] at hwm
    exact hnoexp (by simpa using (mem_expired_iff _ m.signals hkeys w e he).mp hwm)
  · rw [hs₁, lookup_filter_keysNodup _ _ hkeys, he]
    simp [hnoexp]





theorem alistInsert_length_present {β : Type} (l : List (String × β))
    (k : String) (v : β) (h : (l.lookup k).isSome) :
    (alistInsert l k v).length = l.length := by
  unfold alistInsert
  rw [if_pos h]
  exact List.length_map _ _

theorem addSignal_SigInv (m : SigMgr) (uid : String) (now : ℚ)
    (hmax : 1 ≤ m.maxSignals) (hinv : SigInv m) :
    SigInv (m.addSignal uid now) := by
  obtain ⟨hord, hmem, hkeys, hlen⟩ := hinv
  unfold SigMgr.addSignal
  by_cases hu : uid = ""
  · rw [if_pos hu]; exact ⟨hord, hmem, hkeys, hlen⟩
  · rw [if_neg hu]
    dsimp only
    set s₁ := alistInsert m.signals uid (now + m.ttl) with hs₁
    set o₁ := m.order.filter (fun x => x ≠ uid) with ho₁
    set o₂ := dequeAppend m.maxSignals o₁ uid with ho₂
    have huo₁ : uid ∉ o₁ := by
      intro hmm
      rw [ho₁, List.mem_filter] at hmm
      simp at hmm
    have happnd : (o₁ ++ [uid]).Nodup := by
      rw [List.nodup_append]
      exact ⟨hord.filter _, List.nodup_singleton uid,
        by intro x hx hx2; rw [List.mem_singleton] at hx2; subst hx2;
           exact huo₁ hx⟩
    have ho₂nd : o₂.Nodup := (List.drop_sublist _ _).nodup happnd
    have hkdrop : o₁.length + 1 - m.maxSignals ≤ o₁.length := by omega
    have ho₂uid : uid ∈ o₂ := by
      rw [ho₂]
      unfold dequeAppend
      rw [List.drop_append_of_le_length hkdrop]
      exact List.mem_append_right _ (List.mem_singleton_self uid)
    have hlkuid : s₁.lookup uid = some (now + m.ttl) :=
      alistInsert_lookup_self _ _ _
    have hmem₂ : ∀ u ∈ o₂, (s₁.lookup u).isSome := by
      intro u hu2
      have : u ∈ o₁ ++ [uid] := List.mem_of_mem_drop hu2
      rcases List.mem_append.mp this with h1 | h1
      · rw [ho₁, List.mem_filter] at h1
        have hne : u ≠ uid := by simpa using h1.2
        rw [hs₁, alistInsert_lookup_ne _ _ hne]
        exact hmem u h1.1
      · rw [List.mem_singleton] at h1
        subst h1
        rw [hlkuid]
        rfl
    have hkeys₂ : (s₁.map Prod.fst).Nodup := by
      rw [hs₁]
      by_cases hp : (m.signals.lookup uid).isSome
      · rw [alistInsert_keys_present _ _ _ hp]
        exact hkeys
      · rw [alistInsert_keys_absent _ _ _
          (Option.not_isSome_iff_eq_none.mp hp)]
        rw [List.nodup_append]
        refine ⟨hkeys, List.nodup_singleton uid, ?_⟩
        intro x hx hx2
        rw [List.mem_singleton] at hx2
        subst hx2
        exact hp ((lookup_isSome_iff_mem_keys _ _).mpr hx)
    have hlen₂ : s₁.length ≤ m.maxSignals + 1 := by
      rw [hs₁]
      by_cases hp : (m.signals.lookup uid).isSome
      · rw [alistInsert_length_present _ _ _ hp]
        omega
      · rw [alistInsert_length_absent _ _ _
          (Option.not_isSome_iff_eq_none.mp hp)]
        omega
    exact prune_SigInv { m with signals := s₁, order := o₂ } now ho₂nd hmem₂
      hkeys₂ hlen₂ (fun _ => ⟨uid, ho₂uid, by rw [hlkuid]; rfl⟩)

theorem export_SigInv (m : SigMgr) (now : ℚ) (hinv : SigInv m) :
    SigInv (m.exportSignals now).2 := by
  obtain ⟨hord, hmem, hkeys, hlen⟩ := hinv
  show SigInv (m.prune now)
  exact prune_SigInv m now hord hmem hkeys (by omega)
    (fun h => absurd h (by omega))

theorem sig_step_SigInv (m : SigMgr) (op : SigOp) (hmax : 1 ≤ m.maxSignals)
    (hinv : SigInv m) : SigInv (m.step op) := by
  cases op with
  | add uid now => exact addSignal_SigInv m uid now hmax hinv
  | «export» now => exact export_SigInv m now hinv

theorem addSignal_cfg (m : SigMgr) (uid : String) (now : ℚ) :
    (m.addSignal uid now).cfg = m.cfg := by
  unfold SigMgr.addSignal
  split <;> rfl

theorem sig_step_cfg (m : SigMgr) (op : SigOp) : (m.step op).cfg = m.cfg := by
  cases op with
  | add uid now => exact addSignal_cfg m uid now
  | «export» now => rfl

theorem sig_run_cfg (ops : List SigOp) :
    ∀ m : SigMgr, (m.run ops).cfg = m.cfg := by
  induction ops with
  | nil => intro m; rfl
  | cons op t ih =>
    intro m
    show ((m.step op).run t).cfg = m.cfg
    rw [ih, sig_step_cfg]

theorem sig_run_SigInv (ops : List SigOp) :
    ∀ m : SigMgr, 1 ≤ m.maxSignals → SigInv m → SigInv (m.run ops) := by
  induction ops with
  | nil => intro m _ h; exact h
  | cons op t ih =>
    intro m hmax hinv
    show SigInv ((m.step op).run t)
    apply ih
    · have h2 : (m.step op).cfg.maxSignals = m.cfg.maxSignals :=
        congrArg SigMgr.maxSignals (sig_step_cfg m op)
      have h3 : (m.step op).maxSignals = m.maxSignals := h2
      omega
    · exact sig_step_SigInv m op hmax hinv





theorem prune_lookup (m : SigMgr) (now : ℚ) (uid : String)
    (hkeys : (m.signals.map Prod.fst).Nodup) :
    (m.prune now).signals.lookup uid = m.signals.lookup uid ∨
    (m.prune now).signals.lookup uid = none := by
  rw [prune_eq]
  dsimp only
  rcases sigPruneOver_lookup m.maxSignals uid
    (m.order.filter (fun u =>
      u ∉ (m.signals.filter (fun p => p.2 ≤ now)).map Prod.fst))
    (m.signals.filter (fun p => ¬ p.2 ≤ now)) with h | h
  · rw [h, lookup_filter_keysNodup _ _ hkeys]
    match hm : m.signals.lookup uid with
    | none => exact Or.inr rfl
    | some e =>
      dsimp only
      split
      · exact Or.inl rfl
      · exact Or.inr rfl
  · exact Or.inr h

theorem prune_lookup_expired (m : SigMgr) (now : ℚ) (uid : String) (e : ℚ)
    (hkeys : (m.signals.map Prod.fst).Nodup)
    (h : m.signals.lookup uid = some e) (he : e ≤ now) :
    (m.prune now).signals.lookup uid = none := by
  rw [prune_eq]
  dsimp only
  have hfil : (m.signals.filter (fun p => ¬ p.2 ≤ now)).lookup uid = none := by
    rw [lookup_filter_keysNodup _ _ hkeys, h]
    simp [he]
  rcases sigPruneOver_lookup m.maxSignals uid
    (m.order.filter (fun u =>
      u ∉ (m.signals.filter (fun p => p.2 ≤ now)).map Prod.fst))
    (m.signals.filter (fun p => ¬ p.2 ≤ now)) with h2 | h2
  · rw [h2, hfil]
  · exact h2

theorem prune_lookup_none (m : SigMgr) (now : ℚ) (uid : String)
    (h : m.signals.lookup uid = none) :
    (m.prune now).signals.lookup uid = none := by
  rw [prune_eq]
  dsimp only
  have hfil : (m.signals.filter (fun p => ¬ p.2 ≤ now)).lookup uid = none :=
    lookup_filter_none _ _ _ h
  rcases sigPruneOver_lookup m.maxSignals uid
    (m.order.filter (fun u =>
      u ∉ (m.signals.filter (fun p => p.2 ≤ now)).map Prod.fst))
    (m.signals.filter (fun p => ¬ p.2 ≤ now)) with h2 | h2
  · rw [h2, hfil]
  · exact h2

theorem sig_step_lookup (m : SigMgr) (op : SigOp) (uid : String) (t : ℚ)
    (hkeys : (m.signals.map Prod.fst).Nodup)
    (hop : ∀ t'', op ≠ SigOp.add uid t'')
    (h : m.signals.lookup uid = none ∨ m.signals.lookup uid = some t) :
    (m.step op).signals.lookup uid = none ∨
    (m.step op).signals.lookup uid = some t := by
  cases op with
  | add u' t' =>
    have hne : u' ≠ uid := by
      intro he
      exact hop t' (by rw [he])
    show (m.addSignal u' t').signals.lookup uid = none ∨
      (m.addSignal u' t').signals.lookup uid = some t
    unfold SigMgr.addSignal
    by_cases hu : u' = ""
    · rw [if_pos hu]; exact h
    · rw [if_neg hu]
      dsimp only
      set m' : SigMgr := { m with
        signals := alistInsert m.signals u' (t' + m.ttl),
        order := dequeAppend m.maxSignals
          (m.order.filter (fun x => x ≠ u')) u' } with hm'
      have hkeys' : (m'.signals.map Prod.fst).Nodup := by
        rw [hm']
        dsimp only
        by_cases hp : (m.signals.lookup u').isSome
        · rw [alistInsert_keys_present _ _ _ hp]; exact hkeys
        · rw [alistInsert_keys_absent _ _ _
            (Option.not_isSome_iff_eq_none.mp hp)]
          rw [List.nodup_append]
          refine ⟨hkeys, List.nodup_singleton u', ?_⟩
          intro x hx hx2
          rw [List.mem_singleton] at hx2
          subst hx2
          exact hp ((lookup_isSome_iff_mem_keys _ _).mpr hx)
      have hl' : m'.signals.lookup uid = none ∨
          m'.signals.lookup uid = some t := by
        rw [hm']
        dsimp only
        rw [alistInsert_lookup_ne _ _ (fun he => hne he.symm)]
        exact h
      rcases prune_lookup m' t' uid hkeys' with h2 | h2
      · rw [h2]; exact hl'
      · exact Or.inl h2
  | «export» now =>
    show ((m.exportSignals now).2).signals.lookup uid = none ∨
      ((m.exportSignals now).2).signals.lookup uid = some t
    have : (m.exportSignals now).2 = m.prune now := rfl
    rw [this]
    rcases prune_lookup m now uid hkeys with h2 | h2
    · rw [h2]; exact h
    · exact Or.inl h2

theorem sig_run_lookup (uid : String) (t : ℚ) :
    ∀ (ops : List SigOp) (m : SigMgr), 1 ≤ m.maxSignals → SigInv m →
      (∀ op ∈ ops, ∀ t'', op ≠ SigOp.add uid t'') →
      (m.signals.lookup uid = none ∨ m.signals.lookup uid = some t) →
      ((m.run ops).signals.lookup uid = none ∨
        (m.run ops).signals.lookup uid = some t) := by
  intro ops
  induction ops with
  | nil => intro m _ _ _ h; exact h
  | cons op rest ih =>
    intro m hmax hinv hop h
    show ((m.step op).run rest).signals.lookup uid = none ∨
      ((m.step op).run rest).signals.lookup uid = some t
    have h2 : (m.step op).cfg.maxSignals = m.cfg.maxSignals :=
      congrArg SigMgr.maxSignals (sig_step_cfg m op)
    have h3 : (m.step op).maxSignals = m.maxSignals := h2
    apply ih (m.step op) (by omega) (sig_step_SigInv m op hmax hinv)
      (fun o ho => hop o (List.mem_cons_of_mem _ ho))
    exact sig_step_lookup m op uid t hinv.2.2.1
      (hop op (List.mem_cons_self _ _)) h





theorem alistInsert_keysNodup {β : Type} (s : List (String × β)) (u : String)
    (v : β) (hkeys : (s.map Prod.fst).Nodup) :
    ((alistInsert s u v).map Prod.fst).Nodup := by
  by_cases hp : (s.lookup u).isSome
  · rw [alistInsert_keys_present _ _ _ hp]; exact hkeys
  · rw [alistInsert_keys_absent _ _ _ (Option.not_isSome_iff_eq_none.mp hp)]
    rw [List.nodup_append]
    refine ⟨hkeys, List.nodup_singleton u, ?_⟩
    intro x hx hx2
    rw [List.mem_singleton] at hx2
    subst hx2
    exact hp ((lookup_isSome_iff_mem_keys _ _).mpr hx)

/-- C8 (amended): after every operation the store holds at most
`max_signals` map entries, and an entry inserted at time `t` is never exported
at or after `t + TTL`; but the eviction on overflow is *not* FIFO-oldest: the
`deque(maxlen)` silently drops the oldest uid from the order deque (orphaning
its map entry until its TTL expires) while the capacity loop then deletes the
second-oldest entry from the map. -/
theorem claim_C8 :
    (∀ (m : SigMgr) (ops : List SigOp) (k : Nat),
      1 ≤ m.maxSignals → SigInv m →
      (m.run (ops.take k)).signals.length ≤ m.maxSignals) ∧
    (∀ (m : SigMgr) (uid : String) (t now : ℚ) (ops : List SigOp),
      1 ≤ m.maxSignals → SigInv m → uid ≠ "" →
      (∀ op ∈ ops, ∀ t'', op ≠ SigOp.add uid t'') →
      t + m.ttl ≤ now →
      uid ∉ ((((m.addSignal uid t).run ops).exportSignals now).1.map
        Prod.fst)) := by
  constructor
  · intro m ops k hmax hinv
    have hinv' := sig_run_SigInv (ops.take k) m hmax hinv
    have h2 : (m.run (ops.take k)).cfg.maxSignals = m.cfg.maxSignals :=
      congrArg SigMgr.maxSignals (sig_run_cfg (ops.take k) m)
    have h3 : (m.run (ops.take k)).maxSignals = m.maxSignals := h2
    have h4 := hinv'.2.2.2
    omega
  · intro m uid t now ops hmax hinv huid hops httl
    set m₁ := m.addSignal uid t with hm₁
    have hm₁inv : SigInv m₁ := addSignal_SigInv m uid t hmax hinv
    have hc : m₁.cfg.maxSignals = m.cfg.maxSignals :=
      congrArg SigMgr.maxSignals (addSignal_cfg m uid t)
    have hm₁max : 1 ≤ m₁.maxSignals := by
      have h3 : m₁.maxSignals = m.maxSignals := hc
      omega
    have hl₁ : m₁.signals.lookup uid = none ∨
        m₁.signals.lookup uid = some (t + m.ttl) := by
      rw [hm₁]
      unfold SigMgr.addSignal
      rw [if_neg huid]
      dsimp only
      set m' : SigMgr := { m with
        signals := alistInsert m.signals uid (t + m.ttl),
        order := dequeAppend m.maxSignals
          (m.order.filter (fun x => x ≠ uid)) uid } with hm'
      have hk' : (m'.signals.map Prod.fst).Nodup :=
        alistInsert_keysNodup m.signals uid (t + m.ttl) hinv.2.2.1
      rcases prune_lookup m' t uid hk' with h2 | h2
      · rw [h2]
        exact Or.inr (alistInsert_lookup_self _ _ _)
      · exact Or.inl h2
    have hMinv : SigInv (m₁.run ops) := sig_run_SigInv ops m₁ hm₁max hm₁inv
    have hlM := sig_run_lookup uid (t + m.ttl) ops m₁ hm₁max hm₁inv hops hl₁
    intro hmem
    obtain ⟨e, hemem, hefst⟩ := List.mem_map.mp hmem
    have hexp : ((m₁.run ops).exportSignals now).1
        = ((m₁.run ops).prune now).order.filterMap
          (fun u => (((m₁.run ops).prune now).signals.lookup u).map
            (fun x => (u, x))) := rfl
    rw [hexp] at hemem
    obtain ⟨u', hu'mem, hu'eq⟩ := List.mem_filterMap.mp hemem
    obtain ⟨e', he', hee⟩ := Option.map_eq_some'.mp hu'eq
    have hufst : u' = uid := by
      rw [← hefst, ← hee]
    rw [hufst] at he'
    have hnone : ((m₁.run ops).prune now).signals.lookup uid = none := by
      rcases hlM with h2 | h2
      · exact prune_lookup_none _ now uid h2
      · exact prune_lookup_expired _ now uid (t + m.ttl) hMinv.2.2.1 h2 httl
    rw [hnone] at he'
    cases he'

/-- C8 counterexample: with capacity 2, inserting u1, u2, u3 leaves the map
holding u1 (the oldest, orphaned) and u3, evicting u2 — the second-oldest,
not the oldest — and the export order lists only u3. -/
theorem claim_C8_cex :
    ((((SigMgr.init 60 2).addSignal "u1" 0).addSignal "u2" 0).addSignal
      "u3" 0).signals.lookup "u1" = some 60 ∧
    ((((SigMgr.init 60 2).addSignal "u1" 0).addSignal "u2" 0).addSignal
      "u3" 0).signals.lookup "u2" = none ∧
    ((((SigMgr.init 60 2).addSignal "u1" 0).addSignal "u2" 0).addSignal
      "u3" 0).order = ["u3"] :=
  ⟨by with_unfolding_all rfl, by with_unfolding_all rfl,
    by with_unfolding_all rfl⟩

/-- C8 witness: a fresh default store (TTL 60 s, 200 entries). -/
theorem claim_C8_witness :
    (1 ≤ (SigMgr.init 60 200).maxSignals ∧ SigInv (SigMgr.init 60 200) ∧
      ((SigMgr.init 60 200).run ([].take 0)).signals.length
        ≤ (SigMgr.init 60 200).maxSignals) ∧
    ("u1" ≠ "" ∧ (0 : ℚ) + (SigMgr.init 60 200).ttl ≤ 60 ∧
      "u1" ∉ ((((SigMgr.init 60 200).addSignal "u1" 0).run
        []).exportSignals 60).1.map Prod.fst) :=
  ⟨⟨by decide, by decide,
    claim_C8.1 (SigMgr.init 60 200) [] 0 (by decide) (by decide)⟩,
    ⟨by decide, show (0 : ℚ) + 60 ≤ 60 by norm_num,
      claim_C8.2 (SigMgr.init 60 200) "u1" 0 60 [] (by decide) (by decide)
        (by decide) (fun op ho => absurd ho (List.not_mem_nil op))
        (show (0 : ℚ) + 60 ≤ 60 by norm_num)⟩⟩

/-! ## C3 — MAC-spam guard -/

theorem alistGetD_insert_self {β : Type} (l : List (String × β)) (k : String)
    (v d : β) : alistGetD (alistInsert l k v) k d = v := by
  unfold alistGetD
  rw [alistInsert_lookup_self]

theorem alistGetD_insert_ne {β : Type} (l : List (String × β))
    {k k' : String} (v d : β) (h : k' ≠ k) :
    alistGetD (alistInsert l k v) k' d = alistGetD l k' d := by
  unfold alistGetD
  rw [alistInsert_lookup_ne _ _ h]

theorem tickOne_macState (now : ℚ) (acc : Mgr × List Ev × List String)
    (uid : String) : (tickOne now acc uid).1.macState = acc.1.macState := by
  unfold tickOne
  dsimp only
  split
  · rfl
  · split
    · rfl
    · split <;> rfl

theorem tickFold_macState (now : ℚ) :
    ∀ (l : List String) (acc : Mgr × List Ev × List String),
      (l.foldl (tickOne now) acc).1.macState = acc.1.macState := by
  intro l
  induction l with
  | nil => intro acc; rfl
  | cons u t ih =>
    intro acc
    rw [List.foldl_cons, ih (tickOne now acc u), tickOne_macState]

theorem removeFold_macState :
    ∀ (l : List String) (acc : Mgr × List Ev),
      (l.foldl removeOne acc).1.macState = acc.1.macState := by
  intro l
  induction l with
  | nil => intro acc; rfl
  | cons u t ih =>
    intro acc
    rw [List.foldl_cons, ih (removeOne acc u)]
    rfl

theorem sendUpdates_macState (m : Mgr) (now : ℚ) :
    (m.sendUpdates now).1.macState = m.macState := by
  unfold Mgr.sendUpdates
  dsimp only
  rw [removeFold_macState, tickFold_macState]

theorem admitPools_blockedUntil (m : Mgr) (uid : String) (data : DroneRec)
    (trusted : Bool) :
    (m.admitPools uid data trusted).1.macBlockedUntil = m.macBlockedUntil :=
  congrArg Prod.snd (admitPools_macState m uid data trusted)

/-- The backoff deadline for any MAC never decreases across a step (the only
write path raises it: the guard re-arms only when `now ≥` the current
deadline, setting `now + B` with `B ≥ 0`). -/
theorem step_blockedUntil_mono (m : Mgr) (op : MgrOp) (mac : String)
    (hB : 0 ≤ m.macBackoffSeconds) :
    alistGetD m.macBlockedUntil mac 0
      ≤ alistGetD (m.step op).1.macBlockedUntil mac 0 := by
  cases op with
  | setRid uid b =>
    show alistGetD m.macBlockedUntil mac 0 ≤ _
    unfold Mgr.step
    dsimp only
    split <;> exact le_refl _
  | tick now =>
    have h := congrArg Prod.snd (sendUpdates_macState m now)
    show alistGetD m.macBlockedUntil mac 0
      ≤ alistGetD (m.sendUpdates now).1.macBlockedUntil mac 0
    rw [show (m.sendUpdates now).1.macBlockedUntil = m.macBlockedUntil from h]
  | upsert uid data now =>
    show alistGetD m.macBlockedUntil mac 0
      ≤ alistGetD (m.updateOrAdd uid data now).1.macBlockedUntil mac 0
    unfold Mgr.updateOrAdd
    split
    · unfold Mgr.admitNewDrone
      dsimp only
      split
      · by_cases hblk : now < alistGetD m.macBlockedUntil data.mac 0
        · rw [if_pos hblk]
        · rw [if_neg hblk]
          by_cases htrig : (((((alistGetD m.macIdWindow data.mac []).filter
              (fun e => now - e.1 ≤ m.macWindowSeconds)) ++
                [(now, uid)]).map Prod.snd).dedup).length
              > m.maxIdsPerMacWindow
          · rw [if_pos htrig]
            dsimp only
            by_cases hmm : mac = data.mac
            · subst hmm
              rw [alistGetD_insert_self]
              push_neg at hblk
              linarith
            · rw [alistGetD_insert_ne _ _ _ hmm]
          · rw [if_neg htrig, admitPools_blockedUntil]
      · rw [admitPools_blockedUntil]
    · dsimp only
      unfold Mgr.updateExisting
      dsimp only
      split <;> exact le_refl _





theorem run_blockedUntil_mono (ops : List MgrOp) (mac : String) :
    ∀ m : Mgr, 0 ≤ m.macBackoffSeconds →
      alistGetD m.macBlockedUntil mac 0
        ≤ alistGetD (m.run ops).macBlockedUntil mac 0 := by
  induction ops with
  | nil => intro m _; exact le_refl _
  | cons op t ih =>
    intro m hB
    show _ ≤ alistGetD ((m.step op).1.run t).macBlockedUntil mac 0
    have h2 : (m.step op).1.cfg.macBackoffSeconds = m.cfg.macBackoffSeconds :=
      congrArg Mgr.macBackoffSeconds (step_cfg m op)
    have h3 : (m.step op).1.macBackoffSeconds = m.macBackoffSeconds := h2
    exact le_trans (step_blockedUntil_mono m op mac hB)
      (ih _ (by rw [h3]; exact hB))

theorem updateOrAdd_blocked (m : Mgr) (uid : String) (data : DroneRec)
    (now : ℚ) (hnew : m.droneDict.lookup uid = none) (hmac : data.mac ≠ "")
    (hblk : now < alistGetD m.macBlockedUntil data.mac 0) :
    m.updateOrAdd uid data now = (m, false) := by
  unfold Mgr.updateOrAdd
  rw [hnew]
  dsimp only
  unfold Mgr.admitNewDrone
  dsimp only
  rw [if_pos hmac, if_pos hblk]

theorem updateOrAdd_trigger (m : Mgr) (uid : String) (data : DroneRec)
    (now : ℚ) (hnew : m.droneDict.lookup uid = none) (hmac : data.mac ≠ "")
    (hnb : ¬ now < alistGetD m.macBlockedUntil data.mac 0)
    (htrig : (((((alistGetD m.macIdWindow data.mac []).filter
        (fun e => now - e.1 ≤ m.macWindowSeconds)) ++ [(now, uid)]).map
        Prod.snd).dedup).length > m.maxIdsPerMacWindow) :
    (m.updateOrAdd uid data now).2 = false ∧
    alistGetD (m.updateOrAdd uid data now).1.macBlockedUntil data.mac 0
      = now + m.macBackoffSeconds ∧
    (m.updateOrAdd uid data now).1.droneDict = m.droneDict ∧
    (m.updateOrAdd uid data now).1.cfg = m.cfg := by
  unfold Mgr.updateOrAdd
  rw [hnew]
  dsimp only
  unfold Mgr.admitNewDrone
  dsimp only
  rw [if_pos hmac, if_neg hnb, if_pos htrig]
  refine ⟨rfl, ?_, rfl, rfl⟩
  exact alistGetD_insert_self _ _ _ _

theorem updateOrAdd_existing (m : Mgr) (u : String) (ex d : DroneRec)
    (t : ℚ) (h : m.droneDict.lookup u = some ex) :
    (m.updateOrAdd u d t).2 = true ∧
    (m.updateOrAdd u d t).1.macState = m.macState := by
  unfold Mgr.updateOrAdd
  rw [h]
  dsimp only
  unfold Mgr.updateExisting
  dsimp only
  constructor
  · rfl
  · split <;> rfl






/-- C3: when a new-uid admission makes the distinct-uid count for its MAC
exceed `K` within the `W`-second window, that admission is rejected and the
MAC's backoff deadline is set to `now + B`; afterwards, whatever operations
run, every new-uid admission bearing that MAC strictly before `now + B` is
rejected with the registry unchanged, while updates to already-admitted
tracks always succeed and never touch the MAC-guard state. -/
theorem claim_C3 (m : Mgr) (uid : String) (data : DroneRec) (t : ℚ)
    (hB : 0 ≤ m.macBackoffSeconds)
    (hnew : m.droneDict.lookup uid = none)
    (hmac : data.mac ≠ "")
    (hnb : ¬ t < alistGetD m.macBlockedUntil data.mac 0)
    (htrig : (((((alistGetD m.macIdWindow data.mac []).filter
        (fun e => t - e.1 ≤ m.macWindowSeconds)) ++ [(t, uid)]).map
        Prod.snd).dedup).length > m.maxIdsPerMacWindow) :
    (m.updateOrAdd uid data t).2 = false ∧
    (∀ (ops : List MgrOp) (u' : String) (d' : DroneRec) (t' : ℚ),
      (((m.updateOrAdd uid data t).1.run ops).droneDict.lookup u') = none →
      d'.mac = data.mac →
      t' < t + m.macBackoffSeconds →
      ((m.updateOrAdd uid data t).1.run ops).updateOrAdd u' d' t'
        = ((m.updateOrAdd uid data t).1.run ops, false)) ∧
    (∀ (m' : Mgr) (u' : String) (ex d' : DroneRec) (t' : ℚ),
      m'.droneDict.lookup u' = some ex →
      (m'.updateOrAdd u' d' t').2 = true ∧
      (m'.updateOrAdd u' d' t').1.macState = m'.macState) := by
  obtain ⟨hrej, hset, hdict, hcfg⟩ :=
    updateOrAdd_trigger m uid data t hnew hmac hnb htrig
  refine ⟨hrej, ?_, fun m' u' ex d' t' h => updateOrAdd_existing m' u' ex d' t' h⟩
  intro ops u' d' t' hnew' hdmac ht'
  set m₁ := (m.updateOrAdd uid data t).1 with hm₁
  have hBc2 : m₁.cfg.macBackoffSeconds = m.cfg.macBackoffSeconds :=
    congrArg Mgr.macBackoffSeconds hcfg
  have hBc : m₁.macBackoffSeconds = m.macBackoffSeconds := hBc2
  have hmono := run_blockedUntil_mono ops data.mac m₁ (by rw [hBc]; exact hB)
  rw [hset] at hmono
  apply updateOrAdd_blocked _ _ _ _ hnew' (by rw [hdmac]; exact hmac)
  rw [hdmac]
  calc t' < t + m.macBackoffSeconds := ht'
  _ ≤ alistGetD (m₁.run ops).macBlockedUntil data.mac 0 := hmono

/-- C3 witness: §8 scenario 5 — six distinct uids from one MAC inside 30 s;
the sixth admission trips the guard and a seventh uid at `t = 10 < 65` is
rejected. -/
theorem claim_C3_witness :
    (0 ≤ mgrW.macBackoffSeconds ∧
      mgrW.droneDict.lookup "drone-u6" = none ∧
      drM.mac ≠ "" ∧
      ¬ (5 : ℚ) < alistGetD mgrW.macBlockedUntil drM.mac 0 ∧
      (((((alistGetD mgrW.macIdWindow drM.mac []).filter
        (fun e => (5 : ℚ) - e.1 ≤ mgrW.macWindowSeconds)) ++
          [((5 : ℚ), "drone-u6")]).map Prod.snd).dedup).length
        > mgrW.maxIdsPerMacWindow) ∧
    (mgrW.updateOrAdd "drone-u6" drM 5).2 = false ∧
    ((mgrW.updateOrAdd "drone-u6" drM 5).1.run []).updateOrAdd
        "drone-u7" drM 10
      = ((mgrW.updateOrAdd "drone-u6" drM 5).1.run [], false) :=
  ⟨⟨by with_unfolding_all decide, by with_unfolding_all decide,
    by with_unfolding_all decide, by with_unfolding_all decide,
    by with_unfolding_all decide⟩,
    (claim_C3 mgrW "drone-u6" drM 5 (by with_unfolding_all decide)
      (by with_unfolding_all decide) (by with_unfolding_all decide)
      (by with_unfolding_all decide) (by with_unfolding_all decide)).1,
    (claim_C3 mgrW "drone-u6" drM 5 (by with_unfolding_all decide)
      (by with_unfolding_all decide) (by with_unfolding_all decide)
      (by with_unfolding_all decide) (by with_unfolding_all decide)).2.1
      [] "drone-u7" drM 10 (by with_unfolding_all decide)
      (by with_unfolding_all decide) (by with_unfolding_all decide)⟩


theorem filter_ne_eq_self {l : List String} {c : String} (h : c ∉ l) :
    l.filter (fun u => u ≠ c) = l :=
  List.filter_eq_self.mpr
    (fun _ hx => decide_eq_true (fun he => h (he ▸ hx)))

theorem perm_keys_after_erase {rest keys : List String} {c : String}
    (hperm : (c :: rest).Perm keys) (hnd : (c :: rest).Nodup) :
    rest.Perm (keys.filter (fun u => u ≠ c)) := by
  have h1 : (keys.filter (fun u => u ≠ c)).Perm
      ((c :: rest).filter (fun u => u ≠ c)) :=
    (hperm.filter _).symm
  rw [List.filter_cons] at h1
  rw [if_neg (by simp)] at h1
  rw [List.nodup_cons] at hnd
  rw [filter_ne_eq_self hnd.1] at h1
  exact h1.symm

theorem evictOldestGo_spec (trustedOnly : Bool) :
    ∀ (n : Nat) (m : Mgr), MgrInv m →
      MgrInv (evictOldestGo trustedOnly m n).1 ∧
      (∀ u, ((evictOldestGo trustedOnly m n).1.droneDict.lookup u).isSome →
        (m.droneDict.lookup u).isSome) ∧
      ((evictOldestGo trustedOnly m n).2 = false →
        (evictOldestGo trustedOnly m n).1.droneDict = m.droneDict ∧
        (evictOldestGo trustedOnly m n).1.trustedIds = m.trustedIds) ∧
      ((evictOldestGo trustedOnly m n).2 = true →
        (evictOldestGo trustedOnly m n).1.droneDict.length + 1
          = m.droneDict.length ∧
        (trustedOnly = true →
          (evictOldestGo trustedOnly m n).1.trustedIds.length + 1
            = m.trustedIds.length) ∧
        (trustedOnly = false →
          (evictOldestGo trustedOnly m n).1.trustedIds = m.trustedIds)) := by
  intro n
  induction n with
  | zero =>
    intro m hinv
    refine ⟨hinv, fun u h => h, fun _ => ⟨rfl, rfl⟩, fun h => ?_⟩
    cases h
  | succ k ih =>
    intro m hinv
    rw [evictOldestGo]
    match hd : m.drones with
    | [] =>
      refine ⟨hinv, fun u h => h, fun _ => ⟨rfl, rfl⟩, fun h => ?_⟩
      cases h
    | c :: rest =>
      dsimp only
      obtain ⟨hnd, hperm, htnd, htsub⟩ := hinv
      rw [hd] at hnd hperm
      by_cases hrot : trustedOnly ≠ m.trustedIds.contains c
      · rw [if_pos hrot]
        have hinv' : MgrInv { m with drones := rest ++ [c] } := by
          refine ⟨?_, ?_, htnd, ?_⟩
          · exact ((List.perm_append_singleton c rest).nodup_iff).mpr hnd
          · exact (List.perm_append_singleton c rest).trans hperm
          · intro u hu
            have h2 := htsub u hu
            rw [hd] at h2
            exact (List.perm_append_singleton c rest).symm.subset h2
        exact ih { m with drones := rest ++ [c] } hinv'
      · rw [if_neg hrot]
        push_neg at hrot
        dsimp only
        have hckey : (m.droneDict.lookup c).isSome := by
          rw [lookup_isSome_iff_mem_keys]
          exact hperm.subset (List.mem_cons_self c rest)
        have hkeysnd : (m.droneDict.map Prod.fst).Nodup :=
          hperm.nodup_iff.mp hnd
        have hdlen : 1 ≤ m.droneDict.length := by
          have h3 : c ∈ m.droneDict.map Prod.fst :=
            (lookup_isSome_iff_mem_keys _ _).mp hckey
          have h4 := List.length_pos.mpr (List.ne_nil_of_mem h3)
          rw [List.length_map] at h4
          omega
        refine ⟨⟨(List.nodup_cons.mp hnd).2, ?_, ?_, ?_⟩, ?_, ?_, ?_⟩
        · rw [alistErase_keys]
          exact perm_keys_after_erase hperm hnd
        · split
          · exact htnd.filter _
          · exact htnd
        · intro u hu
          split at hu
          · rw [List.mem_filter] at hu
            have h2 := htsub u hu.1
            rw [hd, List.mem_cons] at h2
            rcases h2 with he | he
            · exfalso
              have h5 := hu.2
              simp only [decide_eq_true_eq] at h5
              exact h5 he
            · exact he
          · next hisT =>
            have h2 := htsub u hu
            rw [hd, List.mem_cons] at h2
            rcases h2 with he | he
            · exfalso
              subst he
              exact hisT (List.elem_iff.mpr hu)
            · exact he
        · intro u hu
          exact (show ∀ x, ((alistErase m.droneDict c).lookup x).isSome →
            (m.droneDict.lookup x).isSome by
              intro x hx
              by_cases hxc : x = c
              · subst hxc
                rw [alistErase_lookup_self] at hx
                cases hx
              · rwa [alistErase_lookup_ne _ hxc] at hx) u hu
        · intro h2
          cases h2
        · intro _
          refine ⟨?_, ?_, ?_⟩
          · rw [alistErase_length_isSome m.droneDict c hkeysnd hckey]
            omega
          · intro hto
            have hct : m.trustedIds.contains c = true := by rw [← hrot, hto]
            rw [if_pos hct]
            have hcmem : c ∈ m.trustedIds := List.elem_iff.mp hct
            have htl : 1 ≤ m.trustedIds.length :=
              List.length_pos.mpr (List.ne_nil_of_mem hcmem)
            rw [keys_filter_ne_length c m.trustedIds htnd hcmem]
            omega
          · intro hto
            have hct : m.trustedIds.contains c = false := by rw [← hrot, hto]
            rw [if_neg (by rw [hct]; exact Bool.false_ne_true)]


theorem setAdd_nodup {s : List String} {u : String} (h : s.Nodup) :
    (setAdd s u).Nodup := by
  unfold setAdd
  split
  · exact h
  · next hc =>
    rw [List.nodup_append]
    exact ⟨h, List.nodup_singleton u, by
      intro x hx hx2
      rw [List.mem_singleton] at hx2
      subst hx2
      exact hc (List.elem_iff.mpr hx)⟩

theorem setAdd_subset {s l : List String} {u : String}
    (hs : ∀ x ∈ s, x ∈ l) (hu : u ∈ l) : ∀ x ∈ setAdd s u, x ∈ l := by
  intro x hx
  unfold setAdd at hx
  split at hx
  · exact hs x hx
  · rcases List.mem_append.mp hx with h | h
    · exact hs x h
    · rw [List.mem_singleton] at h
      subst h
      exact hu

theorem setAdd_length_absent {s : List String} {u : String} (h : u ∉ s) :
    (setAdd s u).length = s.length + 1 := by
  unfold setAdd
  rw [if_neg (by intro hc; exact h (List.elem_iff.mp hc))]
  rw [List.length_append]
  rfl

theorem setAdd_length_ge (s : List String) (u : String) :
    s.length ≤ (setAdd s u).length := by
  unfold setAdd
  split
  · exact le_refl _
  · rw [List.length_append]
    omega

theorem admitFinal_spec (m : Mgr) (uid : String) (data : DroneRec)
    (trusted : Bool) (hnew : m.droneDict.lookup uid = none)
    (hinv : MgrInv m) :
    MgrInv (m.admitFinal uid data trusted) ∧
    (m.admitFinal uid data trusted).droneDict.length
      = m.droneDict.length + 1 ∧
    (trusted = true → (m.admitFinal uid data trusted).trustedIds.length
      = m.trustedIds.length + 1) ∧
    (trusted = false → (m.admitFinal uid data trusted).trustedIds
      = m.trustedIds) := by
  obtain ⟨hnd, hperm, htnd, htsub⟩ := hinv
  have hukeys : uid ∉ m.droneDict.map Prod.fst := by
    intro hmm
    rw [← lookup_isSome_iff_mem_keys] at hmm
    rw [hnew] at hmm
    cases hmm
  have hudr : uid ∉ m.drones := fun hmm => hukeys (hperm.subset hmm)
  have hut : uid ∉ m.trustedIds := fun hmm => hudr (htsub uid hmm)
  unfold Mgr.admitFinal
  refine ⟨⟨?_, ?_, ?_, ?_⟩, ?_, ?_, ?_⟩
  · dsimp only
    rw [List.nodup_append]
    exact ⟨hnd, List.nodup_singleton uid, by
      intro x hx hx2
      rw [List.mem_singleton] at hx2
      subst hx2
      exact hudr hx⟩
  · dsimp only
    rw [alistInsert_keys_absent _ _ _ hnew]
    exact hperm.append (List.Perm.refl [uid])
  · dsimp only
    split
    · exact setAdd_nodup htnd
    · exact htnd
  · dsimp only
    intro u hu
    rw [List.mem_append]
    split at hu
    · unfold setAdd at hu
      split at hu
      · exact Or.inl (htsub u hu)
      · rcases List.mem_append.mp hu with h | h
        · exact Or.inl (htsub u h)
        · exact Or.inr h
    · exact Or.inl (htsub u hu)
  · dsimp only
    rw [alistInsert_length_absent _ _ _ hnew]
  · intro ht
    dsimp only
    rw [if_pos (by rw [ht])]
    exact setAdd_length_absent hut
  · intro ht
    dsimp only
    rw [if_neg (by rw [ht]; exact Bool.false_ne_true)]


theorem admitPools_spec (m : Mgr) (uid : String) (data : DroneRec)
    (trusted : Bool) (hnew : m.droneDict.lookup uid = none) (hinv : MgrInv m) :
    MgrInv (m.admitPools uid data trusted).1 ∧
    (m.oppCount ≤ (m.maxOpportunistic : ℤ) →
      (m.admitPools uid data trusted).1.oppCount
        ≤ (m.maxOpportunistic : ℤ)) ∧
    (m.trustedCount ≤ m.maxTrusted →
      (m.admitPools uid data trusted).1.trustedCount ≤ m.maxTrusted) := by
  have hev := evictOldestGo_spec trusted m.drones.length m hinv
  rw [show evictOldestGo trusted m m.drones.length = m.evictOldest trusted
    from rfl] at hev
  unfold Mgr.admitPools
  dsimp only
  cases trusted with
  | true =>
    rw [if_pos rfl]
    by_cases hfull : ((m.trustedIds.length : ℤ) ≥ (m.maxTrusted : ℤ))
    · rw [if_pos hfull]
      obtain ⟨hinv₁, himp, hfalse, htrue⟩ := hev
      by_cases hok : (m.evictOldest true).2 = true
      · rw [if_pos hok]
        obtain ⟨hd₁, ht₁, _⟩ := htrue hok
        have hnew₁ : (m.evictOldest true).1.droneDict.lookup uid = none := by
          rw [← Option.not_isSome_iff_eq_none]
          intro hs
          have := himp uid hs
          rw [hnew] at this
          cases this
        obtain ⟨hinv₂, hd₂, ht₂, _⟩ :=
          admitFinal_spec (m.evictOldest true).1 uid data true hnew₁ hinv₁
        refine ⟨hinv₂, ?_, ?_⟩
        · intro hopp
          unfold Mgr.oppCount at hopp ⊢
          rw [hd₂, ht₂ rfl]
          have h1 := ht₁ rfl
          push_cast
          omega
        · intro htc
          unfold Mgr.trustedCount at htc ⊢
          rw [ht₂ rfl]
          have h1 := ht₁ rfl
          omega
      · rw [if_neg hok]
        obtain ⟨hdeq, hteq⟩ := hfalse (Bool.not_eq_true _ |>.mp hok)
        refine ⟨hinv₁, ?_, ?_⟩
        · intro hopp
          unfold Mgr.oppCount at hopp ⊢
          rw [hdeq, hteq]
          exact hopp
        · intro htc
          unfold Mgr.trustedCount at htc ⊢
          rw [hteq]
          exact htc
    · rw [if_neg hfull]
      obtain ⟨hinv₂, hd₂, ht₂, _⟩ := admitFinal_spec m uid data true hnew hinv
      refine ⟨hinv₂, ?_, ?_⟩
      · intro hopp
        unfold Mgr.oppCount at hopp ⊢
        rw [hd₂, ht₂ rfl]
        push_cast
        omega
      · intro _
        unfold Mgr.trustedCount
        rw [ht₂ rfl]
        push_neg at hfull
        have : m.trustedIds.length < m.maxTrusted := by exact_mod_cast hfull
        omega
  | false =>
    rw [if_neg Bool.false_ne_true]
    by_cases hfull : ((m.droneDict.length : ℤ) - (m.trustedIds.length : ℤ)
        ≥ (m.maxOpportunistic : ℤ))
    · rw [if_pos hfull]
      obtain ⟨hinv₁, himp, hfalse, htrue⟩ := hev
      by_cases hok : (m.evictOldest false).2 = true
      · rw [if_pos hok]
        obtain ⟨hd₁, _, ht₁⟩ := htrue hok
        have hnew₁ : (m.evictOldest false).1.droneDict.lookup uid = none := by
          rw [← Option.not_isSome_iff_eq_none]
          intro hs
          have := himp uid hs
          rw [hnew] at this
          cases this
        obtain ⟨hinv₂, hd₂, _, ht₂⟩ :=
          admitFinal_spec (m.evictOldest false).1 uid data false hnew₁ hinv₁
        refine ⟨hinv₂, ?_, ?_⟩
        · intro hopp
          unfold Mgr.oppCount at hopp ⊢
          rw [hd₂, ht₂ rfl, ht₁ rfl]
          push_cast
          omega
        · intro htc
          unfold Mgr.trustedCount at htc ⊢
          rw [ht₂ rfl, ht₁ rfl]
          exact htc
      · rw [if_neg hok]
        obtain ⟨hdeq, hteq⟩ := hfalse (Bool.not_eq_true _ |>.mp hok)
        refine ⟨hinv₁, ?_, ?_⟩
        · intro hopp
          unfold Mgr.oppCount at hopp ⊢
          rw [hdeq, hteq]
          exact hopp
        · intro htc
          unfold Mgr.trustedCount at htc ⊢
          rw [hteq]
          exact htc
    · rw [if_neg hfull]
      obtain ⟨hinv₂, hd₂, _, ht₂⟩ := admitFinal_spec m uid data false hnew hinv
      refine ⟨hinv₂, ?_, ?_⟩
      · intro _
        unfold Mgr.oppCount
        rw [hd₂, ht₂ rfl]
        push_neg at hfull
        push_cast
        omega
      · intro htc
        unfold Mgr.trustedCount at htc ⊢
        rw [ht₂ rfl]
        exact htc


theorem updateExisting_spec (m : Mgr) (uid : String) (ex data : DroneRec)
    (now : ℚ) (hex : m.droneDict.lookup uid = some ex) (hinv : MgrInv m) :
    MgrInv (m.updateExisting uid ex data now) ∧
    (m.updateExisting uid ex data now).droneDict.length
      = m.droneDict.length ∧
    m.trustedIds.length ≤ (m.updateExisting uid ex data now).trustedIds.length := by
  obtain ⟨hnd, hperm, htnd, htsub⟩ := hinv
  have hsome : (m.droneDict.lookup uid).isSome := by rw [hex]; rfl
  have huid : uid ∈ m.drones := by
    rw [hperm.mem_iff]
    exact (lookup_isSome_iff_mem_keys _ _).mp hsome
  unfold Mgr.updateExisting
  dsimp only
  split
  · refine ⟨⟨hnd, ?_, setAdd_nodup htnd, setAdd_subset htsub huid⟩,
      alistInsert_length_present _ _ _ hsome, setAdd_length_ge _ _⟩
    rw [alistInsert_keys_present _ _ _ hsome]
    exact hperm
  · refine ⟨⟨hnd, ?_, htnd, htsub⟩,
      alistInsert_length_present _ _ _ hsome, le_refl _⟩
    rw [alistInsert_keys_present _ _ _ hsome]
    exact hperm

theorem admitNewDrone_spec (m : Mgr) (uid : String) (data : DroneRec)
    (now : ℚ) (hnew : m.droneDict.lookup uid = none) (hinv : MgrInv m) :
    MgrInv (m.admitNewDrone uid data now).1 ∧
    (m.oppCount ≤ (m.maxOpportunistic : ℤ) →
      (m.admitNewDrone uid data now).1.oppCount ≤ (m.maxOpportunistic : ℤ)) ∧
    (m.trustedCount ≤ m.maxTrusted →
      (m.admitNewDrone uid data now).1.trustedCount ≤ m.maxTrusted) := by
  unfold Mgr.admitNewDrone
  dsimp only
  split
  · split
    · exact ⟨hinv, fun h => h, fun h => h⟩
    · split
      · exact ⟨hinv, fun h => h, fun h => h⟩
      · exact admitPools_spec _ uid data data.ridSuccess hnew hinv
  · exact admitPools_spec m uid data data.ridSuccess hnew hinv

theorem updateOrAdd_spec (m : Mgr) (uid : String) (data : DroneRec)
    (now : ℚ) (hinv : MgrInv m) :
    MgrInv (m.updateOrAdd uid data now).1 ∧
    (m.oppCount ≤ (m.maxOpportunistic : ℤ) →
      (m.updateOrAdd uid data now).1.oppCount ≤ (m.maxOpportunistic : ℤ)) := by
  unfold Mgr.updateOrAdd
  cases hl : m.droneDict.lookup uid with
  | none =>
    obtain ⟨h1, h2, _⟩ := admitNewDrone_spec m uid data now hl hinv
    exact ⟨h1, h2⟩
  | some ex =>
    obtain ⟨h1, h2, h3⟩ := updateExisting_spec m uid ex data now hl hinv
    dsimp only
    refine ⟨h1, fun hopp => ?_⟩
    unfold Mgr.oppCount at hopp ⊢
    rw [h2]
    omega


theorem tickOne_fields (now : ℚ) (acc : Mgr × List Ev × List String)
    (uid : String) :
    (tickOne now acc uid).1.droneDict.map Prod.fst
      = acc.1.droneDict.map Prod.fst ∧
    (tickOne now acc uid).1.droneDict.length = acc.1.droneDict.length ∧
    (tickOne now acc uid).1.drones = acc.1.drones ∧
    (tickOne now acc uid).1.trustedIds = acc.1.trustedIds := by
  unfold tickOne
  dsimp only
  cases hl : acc.1.droneDict.lookup uid with
  | none => exact ⟨rfl, rfl, rfl, rfl⟩
  | some d =>
    dsimp only
    split
    · exact ⟨rfl, rfl, rfl, rfl⟩
    · split
      · have hs : (acc.1.droneDict.lookup uid).isSome := by rw [hl]; rfl
        exact ⟨alistInsert_keys_present _ _ _ hs,
          alistInsert_length_present _ _ _ hs, rfl, rfl⟩
      · exact ⟨rfl, rfl, rfl, rfl⟩

theorem tickFold_fields (now : ℚ) :
    ∀ (l : List String) (acc : Mgr × List Ev × List String),
      (l.foldl (tickOne now) acc).1.droneDict.map Prod.fst
        = acc.1.droneDict.map Prod.fst ∧
      (l.foldl (tickOne now) acc).1.droneDict.length
        = acc.1.droneDict.length ∧
      (l.foldl (tickOne now) acc).1.drones = acc.1.drones ∧
      (l.foldl (tickOne now) acc).1.trustedIds = acc.1.trustedIds := by
  intro l
  induction l with
  | nil => intro acc; exact ⟨rfl, rfl, rfl, rfl⟩
  | cons u t ih =>
    intro acc
    obtain ⟨i1, i2, i3, i4⟩ := ih (tickOne now acc u)
    obtain ⟨o1, o2, o3, o4⟩ := tickOne_fields now acc u
    rw [List.foldl_cons]
    exact ⟨i1.trans o1, i2.trans o2, i3.trans o3, i4.trans o4⟩

theorem perm_erase_filter {l keys : List String} (c : String)
    (hnd : l.Nodup) (hperm : l.Perm keys) :
    (l.erase c).Perm (keys.filter (fun u => u ≠ c)) := by
  by_cases hc : c ∈ l
  · have h1 : l.Perm (c :: l.erase c) := List.perm_cons_erase hc
    have h2 : (keys.filter (fun u => u ≠ c)).Perm
        ((c :: l.erase c).filter (fun u => u ≠ c)) :=
      (hperm.symm.trans h1).filter _
    rw [List.filter_cons, if_neg (by simp)] at h2
    have hne : c ∉ l.erase c := by
      intro hm
      exact ((List.Nodup.mem_erase_iff hnd).mp hm).1 rfl
    rw [filter_ne_eq_self hne] at h2
    exact h2.symm
  · rw [List.erase_of_not_mem hc]
    have hck : c ∉ keys := fun hk => hc (hperm.mem_iff.mpr hk)
    rw [filter_ne_eq_self hck]
    exact hperm

theorem removeOne_spec (acc : Mgr × List Ev) (uid : String)
    (hinv : MgrInv acc.1) :
    MgrInv (removeOne acc uid).1 ∧
    (removeOne acc uid).1.oppCount ≤ acc.1.oppCount := by
  obtain ⟨hnd, hperm, htnd, htsub⟩ := hinv
  unfold removeOne
  dsimp only
  constructor
  · refine ⟨hnd.erase uid, ?_, htnd.filter _, ?_⟩
    · rw [alistErase_keys]
      exact perm_erase_filter uid hnd hperm
    · intro u hu
      rw [List.mem_filter] at hu
      have hne : u ≠ uid := by simpa using hu.2
      rw [List.mem_erase_of_ne hne]
      exact htsub u hu.1
  · unfold Mgr.oppCount
    dsimp only
    by_cases ht : uid ∈ acc.1.trustedIds
    · have hdr : uid ∈ acc.1.drones := htsub uid ht
      have hk : uid ∈ acc.1.droneDict.map Prod.fst := hperm.mem_iff.mp hdr
      have hs : (acc.1.droneDict.lookup uid).isSome :=
        (lookup_isSome_iff_mem_keys _ _).mpr hk
      have hknd : (acc.1.droneDict.map Prod.fst).Nodup :=
        hperm.nodup_iff.mp hnd
      have h1 := alistErase_length_isSome acc.1.droneDict uid hknd hs
      have h2 := keys_filter_ne_length uid acc.1.trustedIds htnd ht
      have htpos : 0 < acc.1.trustedIds.length :=
        List.length_pos.mpr (List.ne_nil_of_mem ht)
      have hdpos : 0 < acc.1.droneDict.length := by
        have := List.length_pos.mpr (List.ne_nil_of_mem hk)
        rwa [List.length_map] at this
      omega
    · rw [filter_ne_eq_self ht]
      have h1 := alistErase_length_le acc.1.droneDict uid
      omega

theorem removeFold_spec :
    ∀ (l : List String) (acc : Mgr × List Ev), MgrInv acc.1 →
      MgrInv (l.foldl removeOne acc).1 ∧
      (l.foldl removeOne acc).1.oppCount ≤ acc.1.oppCount := by
  intro l
  induction l with
  | nil => intro acc h; exact ⟨h, le_refl _⟩
  | cons u t ih =>
    intro acc h
    obtain ⟨h1, h2⟩ := removeOne_spec acc u h
    obtain ⟨h3, h4⟩ := ih (removeOne acc u) h1
    rw [List.foldl_cons]
    exact ⟨h3, le_trans h4 h2⟩

theorem sendUpdates_spec (m : Mgr) (now : ℚ) (hinv : MgrInv m) :
    MgrInv (m.sendUpdates now).1 ∧
    (m.sendUpdates now).1.oppCount ≤ m.oppCount := by
  unfold Mgr.sendUpdates
  dsimp only
  obtain ⟨hkeys, hlen, hdr, htr⟩ := tickFold_fields now m.drones (m, [], [])
  have hinv₁ : MgrInv (m.drones.foldl (tickOne now) (m, [], [])).1 := by
    obtain ⟨hnd, hperm, htnd, htsub⟩ := hinv
    refine ⟨?_, ?_, ?_, ?_⟩
    · rw [hdr]; exact hnd
    · rw [hdr, hkeys]; exact hperm
    · rw [htr]; exact htnd
    · intro u hu
      rw [htr] at hu
      rw [hdr]
      exact htsub u hu
  have hopp₁ : (m.drones.foldl (tickOne now) (m, [], [])).1.oppCount
      = m.oppCount := by
    unfold Mgr.oppCount
    rw [hlen, htr]
  obtain ⟨h1, h2⟩ := removeFold_spec
    (m.drones.foldl (tickOne now) (m, [], [])).2.2
    ((m.drones.foldl (tickOne now) (m, [], [])).1,
     (m.drones.foldl (tickOne now) (m, [], [])).2.1) hinv₁
  exact ⟨h1, by rw [← hopp₁]; exact h2⟩


theorem step_spec (m : Mgr) (op : MgrOp) (hinv : MgrInv m) :
    MgrInv (m.step op).1 ∧
    (m.oppCount ≤ (m.maxOpportunistic : ℤ) →
      (m.step op).1.oppCount ≤ (m.maxOpportunistic : ℤ)) := by
  cases op with
  | upsert uid data now => exact updateOrAdd_spec m uid data now hinv
  | setRid uid b =>
    unfold Mgr.step
    dsimp only
    cases hl : m.droneDict.lookup uid with
    | none => exact ⟨hinv, fun h => h⟩
    | some d =>
      dsimp only
      have hs : (m.droneDict.lookup uid).isSome := by rw [hl]; rfl
      obtain ⟨hnd, hperm, htnd, htsub⟩ := hinv
      refine ⟨⟨hnd, ?_, htnd, htsub⟩, fun hopp => ?_⟩
      · rw [alistInsert_keys_present _ _ _ hs]
        exact hperm
      · unfold Mgr.oppCount at hopp ⊢
        dsimp only
        rw [alistInsert_length_present _ _ _ hs]
        exact hopp
  | tick now =>
    obtain ⟨h1, h2⟩ := sendUpdates_spec m now hinv
    exact ⟨h1, fun hopp => le_trans h2 hopp⟩

theorem run_spec (ops : List MgrOp) :
    ∀ (m : Mgr), MgrInv m → m.oppCount ≤ (m.maxOpportunistic : ℤ) →
      MgrInv (m.run ops) ∧
      (m.run ops).oppCount ≤ ((m.run ops).maxOpportunistic : ℤ) := by
  induction ops with
  | nil => intro m h1 h2; exact ⟨h1, h2⟩
  | cons op t ih =>
    intro m h1 h2
    obtain ⟨h3, h4⟩ := step_spec m op h1
    have hc1 : (m.step op).1.cfg.maxOpportunistic = m.cfg.maxOpportunistic :=
      congrArg Mgr.maxOpportunistic (step_cfg m op)
    have hc : (m.step op).1.maxOpportunistic = m.maxOpportunistic := hc1
    have hrun : m.run (op :: t) = ((m.step op).1).run t := rfl
    rw [hrun]
    exact ih _ h3 (by rw [hc]; exact h4 h2)


/-- C1 (amended): starting from any well-formed registry within the
opportunistic cap, `|opportunistic| ≤ No` (computed as the Python does,
`len(drone_dict) - len(trusted_ids)`) holds after every prefix of any
operation sequence, and the registry stays well-formed; and a *new-uid
admission* (`_admit_new_drone`) preserves `|trusted| ≤ Nt`.  The cap
`|trusted| ≤ Nt` does *not* hold across arbitrary operation sequences:
trust promotion of an existing track in `update_or_add_drone` adds to
`trusted_ids` without any capacity check (see the counterexample). -/
theorem claim_C1 (m : Mgr) (ops : List MgrOp) (hinv : MgrInv m)
    (hopp : m.oppCount ≤ (m.maxOpportunistic : ℤ)) :
    (∀ pre suf, ops = pre ++ suf →
      MgrInv (m.run pre) ∧
      (m.run pre).oppCount ≤ ((m.run pre).maxOpportunistic : ℤ)) ∧
    (∀ uid data now, m.droneDict.lookup uid = none →
      m.trustedCount ≤ m.maxTrusted →
      (m.admitNewDrone uid data now).1.trustedCount ≤ m.maxTrusted) := by
  constructor
  · intro pre _ _
    exact run_spec pre m hinv hopp
  · intro uid data now hnew htc
    exact (admitNewDrone_spec m uid data now hnew hinv).2.2 htc

/-- C1 counterexample: with `max_drones = 1`, two opportunistic admissions
each followed by RID enrichment and a promoting update leave
`len(trusted_ids) = 2 > 1 = Nt`, refuting `|trusted| ≤ Nt` "at all times"
(the promotion branch of `update_or_add_drone` has no capacity check). -/
theorem claim_C1_cex :
    MgrInv mgrC1 ∧ mgrC1.oppCount ≤ (mgrC1.maxOpportunistic : ℤ) ∧
    mgrC1.maxTrusted = 1 ∧
    (mgrC1.run opsC1).trustedCount = 2 := by
  with_unfolding_all decide

theorem claim_C1_witness :
    MgrInv (mgrC1.run [MgrOp.upsert "A" dr0 0]) ∧
    (mgrC1.run [MgrOp.upsert "A" dr0 0]).oppCount
      ≤ ((mgrC1.run [MgrOp.upsert "A" dr0 0]).maxOpportunistic : ℤ) :=
  (claim_C1 mgrC1 [MgrOp.upsert "A" dr0 0]
      (by with_unfolding_all decide) (by with_unfolding_all decide)).1
    [MgrOp.upsert "A" dr0 0] [] rfl


theorem foldr_append_mem {α : Type} (g : α → List Ev) (L : List α) (e : Ev)
    (h : e ∈ L.foldr (fun p acc => g p ++ acc) []) : ∃ p ∈ L, e ∈ g p := by
  induction L with
  | nil => cases h
  | cons a t ih =>
    rw [List.foldr_cons, List.mem_append] at h
    rcases h with h | h
    · exact ⟨a, List.mem_cons_self a t, h⟩
    · obtain ⟨p, hp, he⟩ := ih h
      exact ⟨p, List.mem_cons_of_mem a hp, he⟩

theorem mem_ite_singleton {c : Prop} [Decidable c] {x e : Ev}
    (h : e ∈ (if c then [x] else [])) : e = x := by
  split at h
  · exact List.mem_singleton.mp h
  · cases h

theorem emitForDrone_evUid (m : Mgr) (u : String) (d : DroneRec) :
    ∀ e ∈ emitForDrone m u d, evUid e = u := by
  intro e he
  unfold emitForDrone at he
  rw [List.mem_append, List.mem_append, List.mem_append] at he
  rcases he with ((h | h) | h) | h
  · rw [mem_ite_singleton h]; rfl
  · obtain ⟨p, _, hp⟩ := foldr_append_mem _ _ _ h
    rw [List.mem_append, List.mem_append] at hp
    rcases hp with (g | g) | g
    · rw [mem_ite_singleton g]; rfl
    · rw [mem_ite_singleton g]; rfl
    · rw [mem_ite_singleton g]; rfl
  · rw [mem_ite_singleton h]; rfl
  · rw [mem_ite_singleton h]; rfl


theorem miEvs_shape (S : List Sink) (u : String) :
    ∀ e ∈ miEvs S u, ∃ i, e = Ev.markInactive i u := by
  intro e he
  unfold miEvs at he
  obtain ⟨p, _, hp⟩ := List.mem_filterMap.mp he
  split at hp
  · exact ⟨p.1, (Option.some.inj hp).symm⟩
  · cases hp

theorem miEvs_count_ne (S : List Sink) (u v : String) (hne : v ≠ u) (i : Nat) :
    (miEvs S u).count (Ev.markInactive i v) = 0 := by
  rw [List.count_eq_zero]
  intro hmem
  obtain ⟨j, hj⟩ := miEvs_shape S u _ hmem
  exact hne (congrArg evUid hj)

theorem miCount_low (u : String) :
    ∀ (S : List Sink) (n i : Nat), i < n →
      ((S.enumFrom n).filterMap (fun p =>
          if p.2.hasMarkInactive then some (Ev.markInactive p.1 u)
          else none)).count (Ev.markInactive i u) = 0 := by
  intro S
  induction S with
  | nil => intro n i _; rfl
  | cons s t ih =>
    intro n i hi
    show (List.filterMap _ ((n, s) :: t.enumFrom (n + 1))).count _ = 0
    rw [List.filterMap_cons]
    dsimp only
    by_cases hs : s.hasMarkInactive
    · rw [if_pos hs]
      dsimp only
      rw [List.count_cons, ih (n + 1) i (by omega)]
      have hb : (Ev.markInactive n u == Ev.markInactive i u) = false := by
        rw [beq_eq_false_iff_ne]
        intro hc
        injection hc with h1 h2
        omega
      rw [hb]
      rfl
    · rw [if_neg hs]
      dsimp only
      exact ih (n + 1) i (by omega)

theorem miCount_main (u : String) :
    ∀ (S : List Sink) (n j : Nat),
      ((S.enumFrom n).filterMap (fun p =>
          if p.2.hasMarkInactive then some (Ev.markInactive p.1 u)
          else none)).count (Ev.markInactive (n + j) u)
      = (S.get? j).elim 0 (fun s => if s.hasMarkInactive then 1 else 0) := by
  intro S
  induction S with
  | nil => intro n j; rfl
  | cons s t ih =>
    intro n j
    show (List.filterMap _ ((n, s) :: t.enumFrom (n + 1))).count _ = _
    rw [List.filterMap_cons]
    dsimp only
    by_cases hs : s.hasMarkInactive
    · rw [if_pos hs]
      dsimp only
      cases j with
      | zero =>
        rw [List.count_cons, miCount_low u t (n + 1) (n + 0) (by omega)]
        have hb : (Ev.markInactive n u == Ev.markInactive (n + 0) u) = true := by
          rw [beq_iff_eq, Nat.add_zero]
        rw [hb, if_pos rfl]
        show 0 + 1 = (if s.hasMarkInactive = true then 1 else 0)
        rw [if_pos hs]
      | succ k =>
        rw [List.count_cons,
          show n + (k + 1) = n + 1 + k from by omega, ih (n + 1) k]
        have hb : (Ev.markInactive n u
            == Ev.markInactive (n + 1 + k) u) = false := by
          rw [beq_eq_false_iff_ne]
          intro hc
          injection hc with h1 h2
          omega
        rw [hb]
        rfl
    · rw [if_neg hs]
      dsimp only
      cases j with
      | zero =>
        rw [miCount_low u t (n + 1) (n + 0) (by omega)]
        show 0 = (if s.hasMarkInactive = true then 1 else 0)
        rw [if_neg hs]
      | succ k =>
        rw [show n + (k + 1) = n + 1 + k from by omega, ih (n + 1) k]
        rfl

theorem miEvs_count (S : List Sink) (u : String) (i : Nat) :
    (miEvs S u).count (Ev.markInactive i u)
      = (S.get? i).elim 0 (fun s => if s.hasMarkInactive then 1 else 0) := by
  have h := miCount_main u S 0 i
  rw [Nat.zero_add] at h
  exact h


theorem tickOne_C2 (now : ℚ) (uid : String) (T tout : ℚ)
    (hT : now - T > tout) (acc : Mgr × List Ev × List String) (u : String)
    (hto : acc.1.inactivityTimeout = tout)
    (hlk : Option.map DroneRec.lastUpdateTime (acc.1.droneDict.lookup uid)
      = some T) :
    Option.map DroneRec.lastUpdateTime
      ((tickOne now acc u).1.droneDict.lookup uid) = some T ∧
    (tickOne now acc u).1.inactivityTimeout = tout ∧
    (tickOne now acc u).2.2.count uid
      = acc.2.2.count uid + (if u = uid then 1 else 0) ∧
    (∀ e ∈ (tickOne now acc u).2.1, evUid e = uid → e ∈ acc.2.1) := by
  unfold tickOne
  dsimp only
  cases hl : acc.1.droneDict.lookup u with
  | none =>
    have hu : u ≠ uid := by
      intro hc
      rw [← hc, hl] at hlk
      cases hlk
    refine ⟨hlk, hto, ?_, fun e he _ => he⟩
    rw [if_neg hu]
    rfl
  | some d =>
    dsimp only
    by_cases hu : u = uid
    · subst hu
      rw [hl] at hlk
      have hdT : d.lastUpdateTime = T := Option.some.inj hlk
      rw [if_pos (by rw [hdT, hto]; exact hT)]
      refine ⟨by rw [hl]; exact congrArg some hdT, hto, ?_, fun e he _ => he⟩
      rw [List.count_append, if_pos rfl]
      simp
    · split
      · refine ⟨hlk, hto, ?_, fun e he _ => he⟩
        rw [List.count_append,
          show List.count uid [u] = 0 from by
            rw [List.count_eq_zero, List.mem_singleton]
            exact fun hc => hu hc.symm]
      · split
        · refine ⟨?_, hto, rfl, ?_⟩
          · rw [alistInsert_lookup_ne _ _ (fun hc => hu hc.symm)]
            exact hlk
          · intro e he heu
            rw [List.mem_append] at he
            rcases he with h | h
            · exact h
            · have := emitForDrone_evUid acc.1 u d e h
              rw [heu] at this
              exact absurd this.symm hu
        · exact ⟨hlk, hto, rfl, fun e he _ => he⟩


theorem count_cons_prop {α : Type} [DecidableEq α] (a b : α) (t : List α) :
    (b :: t).count a = t.count a + if b = a then 1 else 0 := by
  rw [List.count_cons]
  congr 1
  by_cases hab : b = a <;> simp [hab]

theorem tickFold_C2 (now : ℚ) (uid : String) (T tout : ℚ)
    (hT : now - T > tout) :
    ∀ (l : List String) (acc : Mgr × List Ev × List String),
      acc.1.inactivityTimeout = tout →
      Option.map DroneRec.lastUpdateTime (acc.1.droneDict.lookup uid)
        = some T →
      Option.map DroneRec.lastUpdateTime
        ((l.foldl (tickOne now) acc).1.droneDict.lookup uid)
        = some T ∧
      (l.foldl (tickOne now) acc).1.inactivityTimeout = tout ∧
      (l.foldl (tickOne now) acc).2.2.count uid
        = acc.2.2.count uid + l.count uid ∧
      (∀ e ∈ (l.foldl (tickOne now) acc).2.1, evUid e = uid →
        e ∈ acc.2.1) := by
  intro l
  induction l with
  | nil =>
    intro acc h1 h2
    exact ⟨h2, h1, rfl, fun e he _ => he⟩
  | cons a t ih =>
    intro acc h1 h2
    obtain ⟨o1, o2, o3, o4⟩ := tickOne_C2 now uid T tout hT acc a h1 h2
    obtain ⟨i1, i2, i3, i4⟩ := ih (tickOne now acc a) o2 o1
    rw [List.foldl_cons]
    refine ⟨i1, i2, ?_, ?_⟩
    · rw [i3, o3, count_cons_prop]
      omega
    · intro e he heu
      exact o4 e (i4 e he heu) heu


theorem removeOne_C2 (uid : String) (acc : Mgr × List Ev) (u : String)
    (hinv : MgrInv acc.1) :
    (removeOne acc u).1.sinks = acc.1.sinks ∧
    (u = uid → (removeOne acc u).1.droneDict.lookup uid = none ∧
      uid ∉ (removeOne acc u).1.drones) ∧
    (acc.1.droneDict.lookup uid = none →
      (removeOne acc u).1.droneDict.lookup uid = none) ∧
    (uid ∉ acc.1.drones → uid ∉ (removeOne acc u).1.drones) ∧
    (removeOne acc u).2 = acc.2 ++ miEvs acc.1.sinks u := by
  refine ⟨rfl, ?_, ?_, ?_, rfl⟩
  · intro hu
    subst hu
    refine ⟨alistErase_lookup_self acc.1.droneDict u, ?_⟩
    intro hm
    exact absurd rfl ((List.Nodup.mem_erase_iff hinv.1).mp hm).1
  · intro hn
    by_cases hu : uid = u
    · rw [show (removeOne acc u).1.droneDict = alistErase acc.1.droneDict u
        from rfl, hu, alistErase_lookup_self]
    · rw [show (removeOne acc u).1.droneDict = alistErase acc.1.droneDict u
        from rfl, alistErase_lookup_ne _ hu]
      exact hn
  · intro hn hm
    exact hn (List.mem_of_mem_erase hm)

theorem removeFold_C2 (uid : String) (S : List Sink) :
    ∀ (l : List String) (acc : Mgr × List Ev),
      acc.1.sinks = S → MgrInv acc.1 →
      (uid ∈ l → (l.foldl removeOne acc).1.droneDict.lookup uid = none ∧
        uid ∉ (l.foldl removeOne acc).1.drones) ∧
      (∀ i, ((l.foldl removeOne acc).2.count (Ev.markInactive i uid))
        = acc.2.count (Ev.markInactive i uid)
          + l.count uid * ((miEvs S uid).count (Ev.markInactive i uid))) ∧
      (∀ e ∈ (l.foldl removeOne acc).2, evUid e = uid →
        e ∈ acc.2 ∨ ∃ i, e = Ev.markInactive i uid) ∧
      ((acc.1.droneDict.lookup uid = none →
        (l.foldl removeOne acc).1.droneDict.lookup uid = none) ∧
       (uid ∉ acc.1.drones → uid ∉ (l.foldl removeOne acc).1.drones)) := by
  intro l
  induction l with
  | nil =>
    intro acc _ _
    refine ⟨fun h => absurd h (List.not_mem_nil uid), fun i => by simp,
      fun e he heu => Or.inl he, fun h => h, fun h => h⟩
  | cons a t ih =>
    intro acc hS hinv
    obtain ⟨r1, r2, r3, r4, r5⟩ := removeOne_C2 uid acc a hinv
    have hinv' : MgrInv (removeOne acc a).1 := (removeOne_spec acc a hinv).1
    have hS' : (removeOne acc a).1.sinks = S := r1.trans hS
    obtain ⟨i1, i2, i3, i4⟩ := ih (removeOne acc a) hS' hinv'
    rw [List.foldl_cons]
    refine ⟨?_, ?_, ?_, ?_, ?_⟩
    · intro hmem
      rcases List.mem_cons.mp hmem with h | h
      · obtain ⟨hn, hd⟩ := r2 h.symm
        exact ⟨i4.1 hn, i4.2 hd⟩
      · exact i1 h
    · intro i
      rw [i2 i, r5, List.count_append, count_cons_prop, hS]
      by_cases hau : a = uid
      · rw [if_pos hau, hau]
        ring
      · rw [if_neg hau, miEvs_count_ne S a uid (fun hc => hau hc.symm) i]
        ring
    · intro e he heu
      rcases i3 e he heu with h | h
      · rw [r5, List.mem_append] at h
        rcases h with h | h
        · exact Or.inl h
        · right
          obtain ⟨j, hj⟩ := miEvs_shape acc.1.sinks a e h
          refine ⟨j, ?_⟩
          rw [hj]
          have : evUid e = a := by rw [hj]; rfl
          rw [← heu, this]
      · exact Or.inr h
    · intro hn
      exact i4.1 (r3 hn)
    · intro hn
      exact i4.2 (r4 hn)


/-- C2 (amended): on the first `send_updates` tick at which
`now - last_update_time > inactivity_timeout` holds for a registered track,
the track is removed from the registry (dict and deque), `mark_inactive(uid)`
is emitted exactly once to every sink that supports it (and to no other sink),
and *no* CoT event of any kind is emitted for that uid during the tick: the
inactivity branch `continue`s before the emission block, so no terminal CoT
with stale time `now` exists, contrary to the spec. -/
theorem claim_C2 (m : Mgr) (now : ℚ) (uid : String) (d : DroneRec)
    (hinv : MgrInv m) (hl : m.droneDict.lookup uid = some d)
    (hexp : now - d.lastUpdateTime > m.inactivityTimeout) :
    (m.sendUpdates now).1.droneDict.lookup uid = none ∧
    uid ∉ (m.sendUpdates now).1.drones ∧
    (∀ i, (m.sendUpdates now).2.count (Ev.markInactive i uid)
      = (m.sinks.get? i).elim 0
          (fun s => if s.hasMarkInactive then 1 else 0)) ∧
    (∀ e ∈ (m.sendUpdates now).2, evUid e = uid →
      ∃ i, e = Ev.markInactive i uid) := by
  have hlk0 : Option.map DroneRec.lastUpdateTime (m.droneDict.lookup uid)
      = some d.lastUpdateTime := by rw [hl]; rfl
  obtain ⟨t1, t2, t3, t4⟩ := tickFold_C2 now uid d.lastUpdateTime
    m.inactivityTimeout hexp m.drones (m, [], []) rfl hlk0
  obtain ⟨hkeys, hlen, hdr, htr⟩ := tickFold_fields now m.drones (m, [], [])
  have hinv1 : MgrInv (m.drones.foldl (tickOne now) (m, [], [])).1 := by
    obtain ⟨hnd, hperm, htnd, htsub⟩ := hinv
    refine ⟨?_, ?_, ?_, ?_⟩
    · rw [hdr]; exact hnd
    · rw [hdr, hkeys]; exact hperm
    · rw [htr]; exact htnd
    · intro u hu
      rw [htr] at hu
      rw [hdr]
      exact htsub u hu
  have hsinks1 : (m.drones.foldl (tickOne now) (m, [], [])).1.sinks
      = m.sinks := by
    have h1 : (m.drones.foldl (tickOne now) (m, [], [])).1.cfg.sinks
        = m.cfg.sinks :=
      congrArg Mgr.sinks (tickFold_cfg now m.drones (m, [], []))
    exact h1
  have hmem : uid ∈ m.drones := by
    rw [hinv.2.1.mem_iff]
    exact (lookup_isSome_iff_mem_keys _ _).mp (by rw [hl]; rfl)
  have hcount : m.drones.count uid = 1 := by
    have h1 := List.nodup_iff_count_le_one.mp hinv.1 uid
    have h2 := List.count_pos_iff.mpr hmem
    omega
  have hrm : (m.drones.foldl (tickOne now) (m, [], [])).2.2.count uid
      = 1 := by
    rw [t3, hcount]
    rfl
  have hmem_rm : uid ∈ (m.drones.foldl (tickOne now) (m, [], [])).2.2 :=
    List.count_pos_iff.mp (by rw [hrm]; exact Nat.one_pos)
  have hnoev : ∀ i, ((m.drones.foldl (tickOne now) (m, [], [])).2.1.count
      (Ev.markInactive i uid)) = 0 := fun i =>
    List.count_eq_zero.mpr (fun hmem' =>
      absurd (t4 _ hmem' rfl) (List.not_mem_nil _))
  obtain ⟨f1, f2, f3, f4⟩ := removeFold_C2 uid m.sinks
    (m.drones.foldl (tickOne now) (m, [], [])).2.2
    ((m.drones.foldl (tickOne now) (m, [], [])).1,
     (m.drones.foldl (tickOne now) (m, [], [])).2.1) hsinks1 hinv1
  unfold Mgr.sendUpdates
  dsimp only
  refine ⟨(f1 hmem_rm).1, (f1 hmem_rm).2, ?_, ?_⟩
  · intro i
    rw [f2 i, hnoev i, hrm, one_mul, miEvs_count, Nat.zero_add]
  · intro e he heu
    rcases f3 e he heu with h | h
    · exact absurd (t4 e h heu) (List.not_mem_nil e)
    · exact h


/-- C2 counterexample: drone `"D"` admitted at `t = 0`, tick at `t = 100`
(past the 60-second timeout).  The complete emission list of the tick is
`[markInactive 0 "D"]` — the drone is removed and the capable sink notified,
but no CoT event (terminal or otherwise) is sent for it, refuting
"exactly one terminal CoT emission per sink before removal". -/
theorem claim_C2_cex :
    (mgrC2.sendUpdates 100).2 = [Ev.markInactive 0 "D"] ∧
    Ev.cot "D" ∉ (mgrC2.sendUpdates 100).2 ∧
    (mgrC2.sendUpdates 100).1.droneDict.lookup "D" = none ∧
    (100 : ℚ) - dr0.lastUpdateTime > mgrC2.inactivityTimeout := by
  with_unfolding_all decide

theorem claim_C2_witness :
    (mgrC2.sendUpdates 100).1.droneDict.lookup "D" = none ∧
    "D" ∉ (mgrC2.sendUpdates 100).1.drones :=
  ⟨(claim_C2 mgrC2 100 "D" dr0 (by with_unfolding_all decide)
      (by with_unfolding_all decide) (by with_unfolding_all decide)).1,
   (claim_C2 mgrC2 100 "D" dr0 (by with_unfolding_all decide)
      (by with_unfolding_all decide) (by with_unfolding_all decide)).2.1⟩


theorem evictOldestGo_lookup (trustedOnly : Bool) (v : String) :
    ∀ (n : Nat) (m : Mgr),
      (evictOldestGo trustedOnly m n).1.droneDict.lookup v
        = m.droneDict.lookup v ∨
      (evictOldestGo trustedOnly m n).1.droneDict.lookup v = none := by
  intro n
  induction n with
  | zero => intro m; exact Or.inl rfl
  | succ k ih =>
    intro m
    rw [evictOldestGo]
    match hd : m.drones with
    | [] => exact Or.inl rfl
    | c :: rest =>
      dsimp only
      by_cases hrot : trustedOnly ≠ m.trustedIds.contains c
      · rw [if_pos hrot]
        exact ih _
      · rw [if_neg hrot]
        by_cases hvc : v = c
        · right
          rw [show (({ m with
              drones := rest
              droneDict := alistErase m.droneDict c
              trustedIds := if m.trustedIds.contains c then
                  m.trustedIds.filter (fun u => u ≠ c)
                else m.trustedIds }, true) :
              Mgr × Bool).1.droneDict = alistErase m.droneDict c from rfl]
          rw [hvc]
          exact alistErase_lookup_self _ _
        · left
          exact alistErase_lookup_ne _ hvc

theorem updateOrAdd_lookup_other (m : Mgr) (u uid : String)
    (data : DroneRec) (now : ℚ) (hne : u ≠ uid) :
    (m.updateOrAdd u data now).1.droneDict.lookup uid
      = m.droneDict.lookup uid ∨
    (m.updateOrAdd u data now).1.droneDict.lookup uid = none := by
  unfold Mgr.updateOrAdd
  cases hl : m.droneDict.lookup u with
  | some ex =>
    dsimp only
    left
    unfold Mgr.updateExisting
    dsimp only
    split
    · exact alistInsert_lookup_ne _ _ (fun hc => hne hc.symm)
    · exact alistInsert_lookup_ne _ _ (fun hc => hne hc.symm)
  | none =>
    dsimp only
    unfold Mgr.admitNewDrone
    dsimp only
    split
    · split
      · exact Or.inl rfl
      · split
        · exact Or.inl rfl
        · unfold Mgr.admitPools Mgr.admitFinal Mgr.evictOldest
          dsimp only
          split
          · split
            · split
              · rcases evictOldestGo_lookup _ uid m.drones.length
                  { m with macIdWindow := _ } with h | h
                · left
                  rw [alistInsert_lookup_ne _ _ (fun hc => hne hc.symm)]
                  exact h
                · right
                  rw [alistInsert_lookup_ne _ _ (fun hc => hne hc.symm)]
                  exact h
              · exact evictOldestGo_lookup _ uid m.drones.length _
            · left
              exact alistInsert_lookup_ne _ _ (fun hc => hne hc.symm)
          · split
            · split
              · rcases evictOldestGo_lookup _ uid m.drones.length _ with h | h
                · left
                  rw [alistInsert_lookup_ne _ _ (fun hc => hne hc.symm)]
                  exact h
                · right
                  rw [alistInsert_lookup_ne _ _ (fun hc => hne hc.symm)]
                  exact h
              · exact evictOldestGo_lookup _ uid m.drones.length _
            · left
              exact alistInsert_lookup_ne _ _ (fun hc => hne hc.symm)
    · unfold Mgr.admitPools Mgr.admitFinal Mgr.evictOldest
      dsimp only
      split
      · split
        · split
          · rcases evictOldestGo_lookup _ uid m.drones.length m with h | h
            · left
              rw [alistInsert_lookup_ne _ _ (fun hc => hne hc.symm)]
              exact h
            · right
              rw [alistInsert_lookup_ne _ _ (fun hc => hne hc.symm)]
              exact h
          · exact evictOldestGo_lookup _ uid m.drones.length m
        · left
          exact alistInsert_lookup_ne _ _ (fun hc => hne hc.symm)
      · split
        · split
          · rcases evictOldestGo_lookup _ uid m.drones.length m with h | h
            · left
              rw [alistInsert_lookup_ne _ _ (fun hc => hne hc.symm)]
              exact h
            · right
              rw [alistInsert_lookup_ne _ _ (fun hc => hne hc.symm)]
              exact h
          · exact evictOldestGo_lookup _ uid m.drones.length m
        · left
          exact alistInsert_lookup_ne _ _ (fun hc => hne hc.symm)


theorem emitForDrone_cot_mem (m : Mgr) (u : String) (d : DroneRec)
    (h : m.hasMessenger = true) : Ev.cot u ∈ emitForDrone m u d := by
  unfold emitForDrone
  rw [h, if_pos rfl]
  exact List.mem_append_left _ (List.mem_append_left _
    (List.mem_append_left _ (List.mem_singleton_self _)))

theorem tickOne_C4 (now : ℚ) (uid : String) (s rl : ℚ)
    (acc : Mgr × List Ev × List String) (u : String)
    (hrl : acc.1.rateLimit = rl) (hmsg : acc.1.hasMessenger = true)
    (hlk : Option.map DroneRec.lastSentTime (acc.1.droneDict.lookup uid)
      = some s) :
    ((Option.map DroneRec.lastSentTime
        ((tickOne now acc u).1.droneDict.lookup uid) = some s ∧
      (∀ e ∈ (tickOne now acc u).2.1, e = Ev.cot uid → e ∈ acc.2.1)) ∨
     (now - s ≥ rl ∧
      Option.map DroneRec.lastSentTime
        ((tickOne now acc u).1.droneDict.lookup uid) = some now ∧
      Ev.cot uid ∈ (tickOne now acc u).2.1)) ∧
    (tickOne now acc u).1.rateLimit = rl ∧
    (tickOne now acc u).1.hasMessenger = true := by
  unfold tickOne
  dsimp only
  cases hl : acc.1.droneDict.lookup u with
  | none => exact ⟨Or.inl ⟨hlk, fun e he _ => he⟩, hrl, hmsg⟩
  | some d =>
    dsimp only
    split
    · exact ⟨Or.inl ⟨hlk, fun e he _ => he⟩, hrl, hmsg⟩
    · split
      · refine ⟨?_, hrl, hmsg⟩
        rename_i hcond
        by_cases hu : u = uid
        · subst hu
          rw [hl] at hlk
          have hds : d.lastSentTime = s := Option.some.inj hlk
          right
          refine ⟨by rw [← hds, ← hrl]; exact hcond, ?_, ?_⟩
          · rw [alistInsert_lookup_self]
            rfl
          · exact List.mem_append_right _ (emitForDrone_cot_mem _ _ _ hmsg)
        · left
          refine ⟨?_, ?_⟩
          · rw [alistInsert_lookup_ne _ _ (fun hc => hu hc.symm)]
            exact hlk
          · intro e he heq
            rcases List.mem_append.mp he with h | h
            · exact h
            · exfalso
              have := emitForDrone_evUid acc.1 u d e h
              rw [heq] at this
              exact hu this.symm
      · exact ⟨Or.inl ⟨hlk, fun e he _ => he⟩, hrl, hmsg⟩

theorem tickOne_events_mono (now : ℚ) (acc : Mgr × List Ev × List String)
    (u : String) (e : Ev) (h : e ∈ acc.2.1) : e ∈ (tickOne now acc u).2.1 := by
  unfold tickOne
  dsimp only
  cases hl : acc.1.droneDict.lookup u with
  | none => exact h
  | some d =>
    dsimp only
    split
    · exact h
    · split
      · exact List.mem_append_left _ h
      · exact h

theorem tickFold_events_mono (now : ℚ) :
    ∀ (l : List String) (acc : Mgr × List Ev × List String) (e : Ev),
      e ∈ acc.2.1 → e ∈ (l.foldl (tickOne now) acc).2.1 := by
  intro l
  induction l with
  | nil => intro acc e h; exact h
  | cons a t ih =>
    intro acc e h
    rw [List.foldl_cons]
    exact ih _ e (tickOne_events_mono now acc a e h)

theorem tickFold_C4 (now : ℚ) (uid : String) :
    ∀ (l : List String) (acc : Mgr × List Ev × List String) (s rl : ℚ),
      acc.1.rateLimit = rl → acc.1.hasMessenger = true →
      Option.map DroneRec.lastSentTime (acc.1.droneDict.lookup uid)
        = some s →
      ((Option.map DroneRec.lastSentTime
          ((l.foldl (tickOne now) acc).1.droneDict.lookup uid) = some s ∧
        (∀ e ∈ (l.foldl (tickOne now) acc).2.1, e = Ev.cot uid →
          e ∈ acc.2.1)) ∨
       (now - s ≥ rl ∧
        Option.map DroneRec.lastSentTime
          ((l.foldl (tickOne now) acc).1.droneDict.lookup uid) = some now ∧
        Ev.cot uid ∈ (l.foldl (tickOne now) acc).2.1)) ∧
      (l.foldl (tickOne now) acc).1.rateLimit = rl ∧
      (l.foldl (tickOne now) acc).1.hasMessenger = true := by
  intro l
  induction l with
  | nil =>
    intro acc s rl h1 h2 h3
    exact ⟨Or.inl ⟨h3, fun e he _ => he⟩, h1, h2⟩
  | cons a t ih =>
    intro acc s rl h1 h2 h3
    obtain ⟨o1, o2, o3⟩ := tickOne_C4 now uid s rl acc a h1 h2 h3
    rw [List.foldl_cons]
    rcases o1 with ⟨p1, p2⟩ | ⟨g, st, mem⟩
    · obtain ⟨i1, i2, i3⟩ := ih (tickOne now acc a) s rl o2 o3 p1
      refine ⟨?_, i2, i3⟩
      rcases i1 with ⟨q1, q2⟩ | ⟨g, st, memf⟩
      · exact Or.inl ⟨q1, fun e he heq => p2 e (q2 e he heq) heq⟩
      · exact Or.inr ⟨g, st, memf⟩
    · obtain ⟨i1, i2, i3⟩ := ih (tickOne now acc a) now rl o2 o3 st
      refine ⟨?_, i2, i3⟩
      rcases i1 with ⟨q1, q2⟩ | ⟨_, st2, memf⟩
      · exact Or.inr ⟨g, q1, tickFold_events_mono now t _ _ mem⟩
      · exact Or.inr ⟨g, st2, memf⟩


theorem removeOne_events_split (acc : Mgr × List Ev) (u : String) (e : Ev)
    (h : e ∈ (removeOne acc u).2) :
    e ∈ acc.2 ∨ ∃ i w, e = Ev.markInactive i w := by
  rcases List.mem_append.mp h with h1 | h1
  · exact Or.inl h1
  · obtain ⟨i, hi⟩ := miEvs_shape acc.1.sinks u e h1
    exact Or.inr ⟨i, u, hi⟩

theorem removeFold_events :
    ∀ (l : List String) (acc : Mgr × List Ev) (e : Ev),
      e ∈ (l.foldl removeOne acc).2 →
      e ∈ acc.2 ∨ ∃ i w, e = Ev.markInactive i w := by
  intro l
  induction l with
  | nil => intro acc e h; exact Or.inl h
  | cons a t ih =>
    intro acc e h
    rw [List.foldl_cons] at h
    rcases ih (removeOne acc a) e h with h1 | h1
    · exact removeOne_events_split acc a e h1
    · exact Or.inr h1

theorem removeFold_events_mono :
    ∀ (l : List String) (acc : Mgr × List Ev) (e : Ev),
      e ∈ acc.2 → e ∈ (l.foldl removeOne acc).2 := by
  intro l
  induction l with
  | nil => intro acc e h; exact h
  | cons a t ih =>
    intro acc e h
    rw [List.foldl_cons]
    exact ih _ e (List.mem_append_left _ h)

theorem removeOne_lookup (acc : Mgr × List Ev) (u uid : String) :
    (removeOne acc u).1.droneDict.lookup uid = acc.1.droneDict.lookup uid ∨
    (removeOne acc u).1.droneDict.lookup uid = none := by
  by_cases hu : uid = u
  · right
    rw [show (removeOne acc u).1.droneDict = alistErase acc.1.droneDict u
      from rfl, hu]
    exact alistErase_lookup_self _ _
  · left
    exact alistErase_lookup_ne _ hu

theorem removeFold_lookup (uid : String) :
    ∀ (l : List String) (acc : Mgr × List Ev),
      (l.foldl removeOne acc).1.droneDict.lookup uid
        = acc.1.droneDict.lookup uid ∨
      (l.foldl removeOne acc).1.droneDict.lookup uid = none := by
  intro l
  induction l with
  | nil => intro acc; exact Or.inl rfl
  | cons a t ih =>
    intro acc
    rw [List.foldl_cons]
    rcases ih (removeOne acc a) with h | h
    · rw [h]
      exact removeOne_lookup acc a uid
    · exact Or.inr h

theorem sendUpdates_C4 (m : Mgr) (now : ℚ) (uid : String) (s : ℚ)
    (hmsg : m.hasMessenger = true)
    (hlk : Option.map DroneRec.lastSentTime (m.droneDict.lookup uid)
      = some s) :
    (Ev.cot uid ∈ (m.sendUpdates now).2 → now - s ≥ m.rateLimit) ∧
    (Ev.cot uid ∈ (m.sendUpdates now).2 →
      Option.map DroneRec.lastSentTime
        ((m.sendUpdates now).1.droneDict.lookup uid) = some now ∨
      (m.sendUpdates now).1.droneDict.lookup uid = none) ∧
    (Ev.cot uid ∉ (m.sendUpdates now).2 →
      Option.map DroneRec.lastSentTime
        ((m.sendUpdates now).1.droneDict.lookup uid) = some s ∨
      (m.sendUpdates now).1.droneDict.lookup uid = none) := by
  obtain ⟨o1, o2, o3⟩ := tickFold_C4 now uid m.drones (m, [], [])
    s m.rateLimit rfl hmsg hlk
  unfold Mgr.sendUpdates
  dsimp only
  have hmemiff : Ev.cot uid ∈
      ((m.drones.foldl (tickOne now) (m, [], [])).2.2.foldl removeOne
        ((m.drones.foldl (tickOne now) (m, [], [])).1,
         (m.drones.foldl (tickOne now) (m, [], [])).2.1)).2 →
      Ev.cot uid ∈ (m.drones.foldl (tickOne now) (m, [], [])).2.1 := by
    intro h
    rcases removeFold_events _ _ _ h with h1 | ⟨i, w, hw⟩
    · exact h1
    · cases hw
  rcases o1 with ⟨p1, p2⟩ | ⟨g, st, mem⟩
  · refine ⟨?_, ?_, ?_⟩
    · intro h
      exact absurd (p2 _ (hmemiff h) rfl) (List.not_mem_nil _)
    · intro h
      exact absurd (p2 _ (hmemiff h) rfl) (List.not_mem_nil _)
    · intro _
      rcases removeFold_lookup uid _ _ with h | h
      · rw [h]
        exact Or.inl p1
      · exact Or.inr h
  · refine ⟨fun _ => g, ?_, ?_⟩
    · intro _
      rcases removeFold_lookup uid _ _ with h | h
      · rw [h]
        exact Or.inl st
      · exact Or.inr h
    · intro hno
      exact absurd (removeFold_events_mono _ _ _ mem) hno


theorem step_C4 (m : Mgr) (op : MgrOp) (uid : String) (s : ℚ)
    (hmsg : m.hasMessenger = true)
    (hlk : Option.map DroneRec.lastSentTime (m.droneDict.lookup uid)
      = some s)
    (hno : Ev.cot uid ∉ (m.step op).2) :
    Option.map DroneRec.lastSentTime
      ((m.step op).1.droneDict.lookup uid) = some s ∨
    (m.step op).1.droneDict.lookup uid = none := by
  cases op with
  | upsert u data now =>
    show Option.map DroneRec.lastSentTime
      ((m.updateOrAdd u data now).1.droneDict.lookup uid) = some s ∨
      (m.updateOrAdd u data now).1.droneDict.lookup uid = none
    by_cases hu : u = uid
    · subst hu
      cases hlu : m.droneDict.lookup u with
      | none => rw [hlu] at hlk; cases hlk
      | some ex =>
        left
        rw [hlu] at hlk
        unfold Mgr.updateOrAdd
        rw [hlu]
        dsimp only
        unfold Mgr.updateExisting
        dsimp only
        split
        · dsimp only
          rw [alistInsert_lookup_self]
          exact hlk
        · dsimp only
          rw [alistInsert_lookup_self]
          exact hlk
    · rcases updateOrAdd_lookup_other m u uid data now hu with h | h
      · rw [h]
        exact Or.inl hlk
      · exact Or.inr h
  | setRid u b =>
    unfold Mgr.step
    dsimp only
    cases hlu : m.droneDict.lookup u with
    | none => exact Or.inl hlk
    | some d =>
      dsimp only
      by_cases hu : u = uid
      · subst hu
        left
        rw [alistInsert_lookup_self]
        rw [hlu] at hlk
        exact hlk
      · left
        rw [alistInsert_lookup_ne _ _ (fun hc => hu hc.symm)]
        exact hlk
  | tick now =>
    exact (sendUpdates_C4 m now uid s hmsg hlk).2.2 hno

theorem uidLive_head (uid : String) :
    ∀ (ops : List MgrOp) (m : Mgr), uidLiveDuring uid m ops →
      (m.droneDict.lookup uid).isSome := by
  intro ops m h
  cases ops with
  | nil => exact h
  | cons op t => exact h.1

theorem run_C4 (uid : String) :
    ∀ (mid : List MgrOp) (m : Mgr) (s : ℚ),
      m.hasMessenger = true →
      Option.map DroneRec.lastSentTime (m.droneDict.lookup uid) = some s →
      uidLiveDuring uid m mid → noCotDuring uid m mid →
      Option.map DroneRec.lastSentTime
        ((m.run mid).droneDict.lookup uid) = some s := by
  intro mid
  induction mid with
  | nil => intro m s _ hlk _ _; exact hlk
  | cons op t ih =>
    intro m s hmsg hlk hlive hno
    have hstep := step_C4 m op uid s hmsg hlk hno.1
    have hsome := uidLive_head uid t (m.step op).1 hlive.2
    have hlk' : Option.map DroneRec.lastSentTime
        ((m.step op).1.droneDict.lookup uid) = some s := by
      rcases hstep with h | h
      · exact h
      · rw [h] at hsome
        cases hsome
    have hmsg' : (m.step op).1.hasMessenger = true := by
      have h1 : (m.step op).1.cfg.hasMessenger = m.cfg.hasMessenger :=
        congrArg Mgr.hasMessenger (step_cfg m op)
      have h2 : (m.step op).1.hasMessenger = m.hasMessenger := h1
      rw [h2]
      exact hmsg
    exact ih (m.step op).1 s hmsg' hlk' hlive.2 hno.2


/-- C4 (confirmed, per-track reading): (i) if a registered track `uid` gets a
main CoT emission at dispatcher tick `t₁` and the next CoT emission for it at
tick `t₂` — with `uid` staying registered and no CoT for it in between — then
`t₂ - t₁ ≥ rate_limit`: `last_sent_time` is stamped to the tick time on every
emission, only ticks with `now - last_sent_time ≥ rate_limit` emit, and no
other operation touches `last_sent_time`; (ii) two `ADSBTracker.should_send`
probes for the same uid less than `rate_limit` apart allow at most one send,
so re-ingesting identical ADS-B JSON within `rate_limit` yields at most one
CoT emission. -/
theorem claim_C4 :
    (∀ (m : Mgr) (uid : String) (d : DroneRec) (t₁ t₂ : ℚ)
       (mid : List MgrOp),
      m.hasMessenger = true →
      m.droneDict.lookup uid = some d →
      Ev.cot uid ∈ (m.step (.tick t₁)).2 →
      uidLiveDuring uid (m.step (.tick t₁)).1 mid →
      noCotDuring uid (m.step (.tick t₁)).1 mid →
      Ev.cot uid ∈ (((m.step (.tick t₁)).1.run mid).step (.tick t₂)).2 →
      t₂ - t₁ ≥ m.rateLimit) ∧
    (∀ (tr : Tracker) (uid : String) (t₁ t₂ : ℚ),
      t₁ ≤ t₂ → t₂ - t₁ < tr.rateLimit → sends2 tr uid t₁ t₂ ≤ 1) := by
  constructor
  · intro m uid d t₁ t₂ mid hmsg hd hem1 hlive hno hem2
    have hlk0 : Option.map DroneRec.lastSentTime (m.droneDict.lookup uid)
        = some d.lastSentTime := by rw [hd]; rfl
    have hstamp1 : Option.map DroneRec.lastSentTime
        ((m.step (.tick t₁)).1.droneDict.lookup uid) = some t₁ := by
      rcases (sendUpdates_C4 m t₁ uid d.lastSentTime hmsg hlk0).2.1 hem1
        with h | h
      · exact h
      · have hsome := uidLive_head uid mid (m.step (.tick t₁)).1 hlive
        rw [show (m.step (.tick t₁)).1.droneDict.lookup uid
          = ((m.sendUpdates t₁).1.droneDict.lookup uid) from rfl] at hsome
        rw [h] at hsome
        cases hsome
    have hmsg1 : (m.step (.tick t₁)).1.hasMessenger = true := by
      have h1 : (m.step (.tick t₁)).1.cfg.hasMessenger = m.cfg.hasMessenger :=
        congrArg Mgr.hasMessenger (step_cfg m (.tick t₁))
      have h2 : (m.step (.tick t₁)).1.hasMessenger = m.hasMessenger := h1
      rw [h2]
      exact hmsg
    have hstamp2 := run_C4 uid mid (m.step (.tick t₁)).1 t₁ hmsg1 hstamp1
      hlive hno
    have hmsg2 : ((m.step (.tick t₁)).1.run mid).hasMessenger = true := by
      have h1 : ((m.step (.tick t₁)).1.run mid).cfg.hasMessenger
          = (m.step (.tick t₁)).1.cfg.hasMessenger :=
        congrArg Mgr.hasMessenger (run_cfg mid (m.step (.tick t₁)).1)
      have h2 : ((m.step (.tick t₁)).1.run mid).hasMessenger
          = (m.step (.tick t₁)).1.hasMessenger := h1
      rw [h2]
      exact hmsg1
    have hgap := (sendUpdates_C4 ((m.step (.tick t₁)).1.run mid) t₂ uid t₁
      hmsg2 hstamp2).1 hem2
    have hrl : ((m.step (.tick t₁)).1.run mid).rateLimit = m.rateLimit := by
      have h1 : ((m.step (.tick t₁)).1.run mid).cfg.rateLimit
          = (m.step (.tick t₁)).1.cfg.rateLimit :=
        congrArg Mgr.rateLimit (run_cfg mid (m.step (.tick t₁)).1)
      have h2 : (m.step (.tick t₁)).1.cfg.rateLimit = m.cfg.rateLimit :=
        congrArg Mgr.rateLimit (step_cfg m (.tick t₁))
      have h3 : ((m.step (.tick t₁)).1.run mid).rateLimit = m.rateLimit :=
        h1.trans h2
      exact h3
    rw [hrl] at hgap
    exact hgap
  · intro tr uid t₁ t₂ _ hlt
    unfold sends2 Tracker.shouldSend
    dsimp only
    by_cases h1 : t₁ - alistGetD tr.lastSent uid 0 ≥ tr.rateLimit
    · rw [if_pos h1]
      dsimp only
      rw [alistGetD_insert_self]
      have h2 : ¬ (t₂ - t₁ ≥ tr.rateLimit) := by
        intro hc
        rw [ge_iff_le] at hc
        linarith
      rw [if_neg h2]
      simp
    · rw [if_neg h1]
      dsimp only
      by_cases h2 : t₂ - alistGetD tr.lastSent uid 0 ≥ tr.rateLimit
      · rw [if_pos h2]
        simp
      · rw [if_neg h2]
        simp


theorem claim_C4_witness :
    ((2 : ℚ) - 1 ≥ mgrC2.rateLimit) ∧
    sends2 (Tracker.init 1 30) "a" 10 (21/2) ≤ 1 :=
  ⟨claim_C4.1 mgrC2 "D" dr0 1 2 []
      (by with_unfolding_all decide) (by with_unfolding_all decide)
      (by with_unfolding_all decide)
      (show ((mgrC2.step (MgrOp.tick 1)).1.droneDict.lookup "D").isSome = true
        by with_unfolding_all decide)
      True.intro
      (by with_unfolding_all decide),
   claim_C4.2 (Tracker.init 1 30) "a" 10 (21/2)
      (by with_unfolding_all decide) (by with_unfolding_all decide)⟩

end DragonSync
